import Mathlib

set_option maxRecDepth 100000

/-!
Shallow embedding of the money-manager pipeline (Rust sources
`src/main.rs` and `src/money_manager.rs`) and proofs about it.

Conventions of the embedding:

* `f64` monetary amounts are modelled as exact rationals (`ℚ`); the pipeline
  only adds, negates, compares and averages amounts.
* Rust panics (out-of-bounds indexing, `Option::unwrap` on `None`, integer
  underflow, `statistical::median` on an empty slice) are modelled as explicit
  `panicked` / `none` outcomes.
* `BTreeMap`/`BTreeSet` are modelled as ascending association lists with
  sorted insertion; the key order is the lexicographic order on strings
  (byte order on UTF-8 equals codepoint order).
* `calamine::DataType` cells are modelled by the `DataType` inductive below;
  worksheets are `(name, rows)` pairs, a workbook is a list of worksheets.
* The rendering boundary (plotly traces, SVG files, random file names) is
  out of scope; `draw_image` returns the chart content it would render.

Definitions in the namespace `MainRs` embed `src/main.rs`, those in `MM`
embed `src/money_manager.rs`; everything shared verbatim by both files is
at top level of `MoneyManager`.
-/

namespace MoneyManager

/-! ### Decimal formatting: Rust `format!("{:04}", n)`, `"{:02}"`, `"{}"` -/

/-- Decimal digits of `n`, most significant first, via explicit fuel so the
kernel can evaluate it.  Mirrors Rust's decimal `Display` for unsigned
integers. -/
def toDigitsAux : Nat → Nat → List Char
  | 0, _ => []
  | fuel + 1, n =>
    if n < 10 then [Nat.digitChar n]
    else toDigitsAux fuel (n / 10) ++ [Nat.digitChar (n % 10)]

/-- Decimal representation of a natural number as characters. -/
def natChars (n : Nat) : List Char := toDigitsAux (n + 1) n

/-- Left-pad a digit string with `'0'` up to width `w`
(Rust `{:0w}` formatting for non-negative values). -/
def padChars (w : Nat) (l : List Char) : List Char :=
  List.replicate (w - l.length) '0' ++ l

/-- Rust `format!("{:04}", z)` for an `i32` year: for negative values the sign
counts towards the width, so `-1` prints as `-001`. -/
def fmtInt4 (z : Int) : List Char :=
  if 0 ≤ z then padChars 4 (natChars z.toNat)
  else '-' :: padChars 3 (natChars z.natAbs)

/-! ### Calendar dates (`chrono::NaiveDate`) -/

/-- Leap-year rule used by the proleptic Gregorian calendar of `chrono`. -/
def is_leap_year (y : Int) : Bool :=
  y % 4 == 0 && (y % 100 != 0 || y % 400 == 0)

/-- Number of days of month `m` in year `y`. -/
def days_in_month (y : Int) (m : Nat) : Nat :=
  if m = 2 then (if is_leap_year y then 29 else 28)
  else if m = 4 ∨ m = 6 ∨ m = 9 ∨ m = 11 then 30
  else 31

/-- Calendar date, mirroring `chrono::NaiveDate` (year, month 1–12,
day 1–31). -/
structure Date where
  year : Int
  month : Nat
  day : Nat
deriving DecidableEq

/-- Smallest year representable by `chrono::NaiveDate`. -/
def MIN_YEAR : Int := -262143

/-- Largest year representable by `chrono::NaiveDate`. -/
def MAX_YEAR : Int := 262142

/-- The date is one `chrono::NaiveDate` can represent: a real proleptic
Gregorian calendar date within chrono's year range. -/
def Date.Valid (d : Date) : Prop :=
  MIN_YEAR ≤ d.year ∧ d.year ≤ MAX_YEAR ∧ 1 ≤ d.month ∧ d.month ≤ 12 ∧
    1 ≤ d.day ∧ d.day ≤ days_in_month d.year d.month

instance (d : Date) : Decidable d.Valid := by
  unfold Date.Valid
  infer_instance

/-- Chronological (lexicographic year/month/day) order on dates, as given by
`chrono::NaiveDate`'s `Ord` instance. -/
def Date.lt (d₁ d₂ : Date) : Prop :=
  d₁.year < d₂.year ∨
    (d₁.year = d₂.year ∧
      (d₁.month < d₂.month ∨ (d₁.month = d₂.month ∧ d₁.day < d₂.day)))

instance (d₁ d₂ : Date) : Decidable (Date.lt d₁ d₂) := by
  unfold Date.lt
  infer_instance

/-! ### Period key derivation (`by_month`, `by_quarter`, `by_year`) -/

/-- Rust `by_month`: `format!("{:04}-{:02}", date.year(), date.month())`
(identical in both source files). -/
def by_month (date : Date) : String :=
  ⟨fmtInt4 date.year ++ '-' :: padChars 2 (natChars date.month)⟩

/-- Rust `by_year`: `format!("{:04}", date.year())` (identical in both
source files). -/
def by_year (date : Date) : String :=
  ⟨fmtInt4 date.year⟩

/-- Rust `by_quarter` of `src/main.rs`:
`format!("{:04}-q{}", date.year(), date.month() / 3 + 1)`. -/
def MainRs.by_quarter (date : Date) : String :=
  ⟨fmtInt4 date.year ++ '-' :: 'q' :: natChars (date.month / 3 + 1)⟩

/-- Rust `by_quarter` of `src/money_manager.rs`:
`format!("{:04}-q{}", date.year(), (date.month() - 1) / 3 + 1)`. -/
def MM.by_quarter (date : Date) : String :=
  ⟨fmtInt4 date.year ++ '-' :: 'q' :: natChars ((date.month - 1) / 3 + 1)⟩

/-- Grouping granularity selected on the command line. -/
inductive GroupBy where
  | month
  | quarter
  | year
deriving DecidableEq

/-- Rust `period_from_date` of `src/main.rs`. -/
def MainRs.period_from_date : GroupBy → Date → String
  | .year => by_year
  | .quarter => MainRs.by_quarter
  | .month => by_month

/-- Rust `period_from_date` of `src/money_manager.rs`. -/
def MM.period_from_date : GroupBy → Date → String
  | .year => by_year
  | .quarter => MM.by_quarter
  | .month => by_month

/-! ### Worksheet cells and rows (`calamine::DataType`) -/

/-- Model of `calamine::DataType` cell values (the variants the program
distinguishes; everything else behaves like `empty`). -/
inductive DataType where
  | string (s : String)
  | float (f : ℚ)
  | int (i : Int)
  | bool (b : Bool)
  | empty
deriving DecidableEq

/-- Resolved column indices (struct `Columns` of the sources). -/
structure Columns where
  period : Nat
  category : Nat
  tx_type : Nat
  value : Nat
deriving DecidableEq

/-- Transaction type (enum `TxType` of the sources). -/
inductive TxType where
  | income
  | outcome
deriving DecidableEq

/-- Parsed row (struct `Fields` of the sources); `period` is the raw date,
`value` the `f64` cell value modelled as a rational. -/
structure Fields where
  period : Date
  category : String
  tx_type : TxType
  value : ℚ
deriving DecidableEq

/-- Model of `chrono::NaiveDate::parse_from_str(s, "%d.%m.%Y")` on
zero-padded `DD.MM.YYYY` input: digits are read positionally and the result
must be a real calendar date. -/
def parse_from_str (s : String) : Option Date :=
  match s.data with
  | [d1, d2, '.', m1, m2, '.', y1, y2, y3, y4] =>
    if d1.isDigit && d2.isDigit && m1.isDigit && m2.isDigit &&
        y1.isDigit && y2.isDigit && y3.isDigit && y4.isDigit then
      let day := 10 * (d1.toNat - 48) + (d2.toNat - 48)
      let month := 10 * (m1.toNat - 48) + (m2.toNat - 48)
      let year : Int := (1000 * (y1.toNat - 48) + 100 * (y2.toNat - 48) +
        10 * (y3.toNat - 48) + (y4.toNat - 48) : Nat)
      if 1 ≤ month ∧ month ≤ 12 ∧ 1 ≤ day ∧ day ≤ days_in_month year month
      then some ⟨year, month, day⟩
      else none
    else none
  | _ => none

/-- The label meaning Income (`"Доход"` in the sources). -/
def income_label : String := "Доход"

/-- The label meaning Outcome (`"Расход"` in the sources). -/
def outcome_label : String := "Расход"

/-- Which field of a row failed to parse, together with the offending cell.
The sources carry this information as a formatted message string
(`"Не могу прочитать ... из строки {:?}"` in `main.rs`,
`"Can't read ... from {:?}"` in `money_manager.rs`). -/
inductive RowErr where
  | badPeriod (cell : DataType)
  | badCategory (cell : DataType)
  | badTxType (cell : DataType)
  | badValue (cell : DataType)
deriving DecidableEq

/-- Outcome of `read_row`: a parsed transaction, a per-field error, or a
Rust panic (out-of-bounds indexing, or `tx_type.unwrap()` on `None`). -/
inductive RowResult where
  | ok (f : Fields)
  | err (e : RowErr)
  | panicked
deriving DecidableEq

/-- Tail of `read_row` from the value check on: reads `row[columns.value]`,
then builds `Fields` — which calls `tx_type.unwrap()`, a panic when the
transaction-type cell was not a string (`txt = none`). -/
def read_row_finish (columns : Columns) (row : List DataType) (date : Date)
    (cat : String) (txt : Option TxType) : RowResult :=
  match row.get? columns.value with
  | none => .panicked
  | some vcell =>
    match vcell with
    | .float f =>
      match txt with
      | some t => .ok ⟨date, cat, t, f⟩
      | none => .panicked
    | _ => .err (.badValue vcell)

/-- Rust `read_row` (identical logic in both source files): sequentially
validates the period, category, transaction-type and value cells, mirroring
the early returns of the source.  A non-string transaction-type cell leaves
`tx_type = None` without an early return; the final `tx_type.unwrap()` then
panics. -/
def read_row (columns : Columns) (row : List DataType) : RowResult :=
  match row.get? columns.period with
  | none => .panicked
  | some pcell =>
    match (match pcell with | .string s => parse_from_str s | _ => none) with
    | none => .err (.badPeriod pcell)
    | some date =>
      match row.get? columns.category with
      | none => .panicked
      | some ccell =>
        match (match ccell with | .string s => some s | _ => none) with
        | none => .err (.badCategory ccell)
        | some cat =>
          match row.get? columns.tx_type with
          | none => .panicked
          | some tcell =>
            match tcell with
            | .string s =>
              if s = income_label then
                read_row_finish columns row date cat (some .income)
              else if s = outcome_label then
                read_row_finish columns row date cat (some .outcome)
              else .err (.badTxType tcell)
            | _ => read_row_finish columns row date cat none

/-! ### Sorted maps (`BTreeMap`) keyed by strings -/

/-- Lexicographic strict order on character lists as a boolean, mirroring the
`Ord` instance Rust's `BTreeMap<String, _>` sorts by (byte order on UTF-8
agrees with codepoint order). -/
def charsLt : List Char → List Char → Bool
  | [], [] => false
  | [], _ :: _ => true
  | _ :: _, [] => false
  | a :: as, b :: bs => if a < b then true else if b < a then false else charsLt as bs

/-- Lexicographic strict order on strings as a boolean. -/
def strLt (s t : String) : Bool := charsLt s.data t.data

/-- Lookup in an association list
(`BTreeMap::get` / the read side of `entry`). -/
def lookupKV {β : Type} : List (String × β) → String → Option β
  | [], _ => none
  | (k, v) :: rest, key => if key = k then some v else lookupKV rest key

/-- Sorted insert-or-combine, the shape shared by the `entry(..).or_insert(..)`
updates: on a hit the stored value becomes `f v`, on a miss `init` is
inserted at its sorted position. -/
def insertWith {β : Type} (f : β → β) (init : β) :
    List (String × β) → String → List (String × β)
  | [], key => [(key, init)]
  | (k, v) :: rest, key =>
    if strLt key k then (key, init) :: (k, v) :: rest
    else if key = k then (k, f v) :: rest
    else (k, v) :: insertWith f init rest key

/-- Rust `*inner.entry(period).or_insert(0.0) += addition` on the inner
`BTreeMap<Period, f64>`. -/
def bump (m : List (String × ℚ)) (key : String) (v : ℚ) : List (String × ℚ) :=
  insertWith (· + v) v m key

/-- One worksheet's ledger: `BTreeMap<Category, BTreeMap<Period, f64>>`
(`WorksheetData` in the sources). -/
abbrev Ledger := List (String × List (String × ℚ))

/-- Rust
`*by_category.entry(category).or_insert(BTreeMap::new()).entry(period).or_insert(0.0) += addition`. -/
def ledger_add (led : Ledger) (cat per : String) (v : ℚ) : Ledger :=
  insertWith (fun m => bump m per v) (bump [] per v) led cat

/-- Signed amount of a transaction (`let addition = match fields.tx_type`):
Outcome adds the value, Income subtracts it. -/
def addition (f : Fields) : ℚ :=
  match f.tx_type with
  | .outcome => f.value
  | .income => -f.value

/-- One iteration of the accumulation loop of `read_worksheet`, for an
already-parsed transaction. -/
def ledger_step (group_by : Date → String) (led : Ledger) (f : Fields) : Ledger :=
  ledger_add led f.category (group_by f.period) (addition f)

/-- The ledger-building fold of `read_worksheet` over parsed transactions:
this is the "Ledger Builder" of the specification. -/
def build_ledger (group_by : Date → String) (txs : List Fields) : Ledger :=
  txs.foldl (ledger_step group_by) []

/-- Sorted duplicate-free insert (`BTreeSet::insert` on period strings). -/
def insert_period : List String → String → List String
  | [], p => [p]
  | q :: rest, p =>
    if strLt p q then p :: q :: rest
    else if p = q then q :: rest
    else q :: insert_period rest p

/-! ### IEEE-754 binary64 accumulation

The source accumulates bucket totals with `f64` `+=`.  The exact-rational
model above is order-independent; to settle whether the source's
floating-point fold is too, the following models binary64 arithmetic
exactly: a finite double is a sign, a 53-bit normalised mantissa and a
binary exponent, and addition rounds the exact sum to nearest, ties to
even.  The exponent range is unbounded here (no overflow or subnormal
rounding); every value exercised below lies well inside the normal range,
where this model agrees bit-for-bit with IEEE-754 binary64. -/

/-- Finite binary64 value `(-1)^neg * mantissa * 2^exponent`, with
`mantissa = 0` (zero, canonically non-negative) or `2^52 ≤ mantissa < 2^53`. -/
structure F64 where
  neg : Bool
  mantissa : Nat
  exponent : Int
deriving DecidableEq

/-- Number of binary digits of `n`, via explicit fuel so the kernel can
evaluate it. -/
def bitLenAux : Nat → Nat → Nat
  | 0, _ => 0
  | fuel + 1, n => if n = 0 then 0 else bitLenAux fuel (n / 2) + 1

/-- Number of binary digits of `n`. -/
def bitLen (n : Nat) : Nat := bitLenAux (n + 1) n

/-- Round a positive integer to 53 significant bits, to nearest with ties
to even: returns the mantissa in `[2^52, 2^53)` and the binary shift. -/
def roundMantissa (n : Nat) : Nat × Int :=
  let k := bitLen n
  if k ≤ 53 then (n * 2 ^ (53 - k), (k : Int) - 53)
  else
    let d := k - 53
    let m₀ := n / 2 ^ d
    let r := n % 2 ^ d
    let m₁ := if 2 * r < 2 ^ d then m₀
      else if 2 ^ d < 2 * r then m₀ + 1
      else (if m₀ % 2 = 0 then m₀ else m₀ + 1)
    if m₁ = 2 ^ 53 then (2 ^ 52, (d : Int) + 1) else (m₁, (d : Int))

/-- Round the exact value `(-1)^neg * n * 2^e` to binary64. -/
def roundF64 (neg : Bool) (n : Nat) (e : Int) : F64 :=
  if n = 0 then ⟨false, 0, 0⟩
  else
    let p := roundMantissa n
    ⟨neg, p.1, e + p.2⟩

/-- Binary64 addition: the exact signed sum of the two dyadic values,
rounded to nearest with ties to even (an exact cancellation gives `+0`,
as in round-to-nearest modes). -/
def f64add (x y : F64) : F64 :=
  let e := min x.exponent y.exponent
  let sx : Int := (if x.neg then -(x.mantissa : Int) else (x.mantissa : Int)) *
    2 ^ (x.exponent - e).toNat
  let sy : Int := (if y.neg then -(y.mantissa : Int) else (y.mantissa : Int)) *
    2 ^ (y.exponent - e).toNat
  let s := sx + sy
  roundF64 (decide (s < 0)) s.natAbs e

/-- Binary64 negation (`-0` is identified with `+0`; no exercised value is
a zero). -/
def f64neg (x : F64) : F64 :=
  if x.mantissa = 0 then ⟨false, 0, 0⟩ else ⟨!x.neg, x.mantissa, x.exponent⟩

/-- The binary64 value nearest to the natural number `n`. -/
def f64ofNat (n : Nat) : F64 := roundF64 false n 0

/-- Parsed row carrying its `f64` value as a binary64 datum rather than an
exact rational. -/
structure Fields64 where
  period : Date
  category : String
  tx_type : TxType
  value : F64
deriving DecidableEq

/-- Signed amount with binary64 semantics (`let addition = match ...`). -/
def addition64 (f : Fields64) : F64 :=
  match f.tx_type with
  | .outcome => f.value
  | .income => f64neg f.value

/-- Rust `*inner.entry(period).or_insert(0.0) += addition` with genuine
`f64` accumulation. -/
def bump64 (m : List (String × F64)) (key : String) (v : F64) : List (String × F64) :=
  insertWith (fun w => f64add w v) (f64add ⟨false, 0, 0⟩ v) m key

/-- The nested `entry(..).or_insert(..)` update of `read_worksheet` with
`f64` accumulation. -/
def ledger_add64 (led : List (String × List (String × F64))) (cat per : String)
    (v : F64) : List (String × List (String × F64)) :=
  insertWith (fun m => bump64 m per v) (bump64 [] per v) led cat

/-- One iteration of the accumulation loop of `read_worksheet`, with `f64`
values. -/
def ledger_step64 (group_by : Date → String)
    (led : List (String × List (String × F64))) (f : Fields64) :
    List (String × List (String × F64)) :=
  ledger_add64 led f.category (group_by f.period) (addition64 f)

/-- The ledger-building fold of `read_worksheet` over parsed transactions,
with the source's `f64` accumulation semantics. -/
def build_ledger64 (group_by : Date → String) (txs : List Fields64) :
    List (String × List (String × F64)) :=
  txs.foldl (ledger_step64 group_by) []

/-! ### Header resolution and `read_worksheet` -/

/-- Header label of the period column. -/
def period_str : String := "Период"

/-- Header label of the category column. -/
def category_str : String := "Категория"

/-- Header label of the transaction-type column. -/
def tx_type_str : String := "Доход/Расход"

/-- Header label of the value column. -/
def value_str : String := "RUB"

/-- Column positions resolved so far while scanning the header row. -/
structure HeaderPos where
  period_pos : Option Nat
  category_pos : Option Nat
  tx_type_pos : Option Nat
  value_pos : Option Nat
deriving DecidableEq

/-- One iteration of the header scan: the `if`/`else if` chain of
`read_worksheet` applied to the cell at index `ic.1`. -/
def scan_step (acc : HeaderPos) (ic : Nat × DataType) : HeaderPos :=
  if ic.2 = DataType.string period_str then { acc with period_pos := some ic.1 }
  else if ic.2 = DataType.string category_str then { acc with category_pos := some ic.1 }
  else if ic.2 = DataType.string tx_type_str then { acc with tx_type_pos := some ic.1 }
  else if ic.2 = DataType.string value_str then { acc with value_pos := some ic.1 }
  else acc

/-- The header scan `for i in 0..first_row.len() - 1 { ... }` for a
non-empty first row: only the cells strictly before the last one are
examined. -/
def scan_header (first_row : List DataType) : HeaderPos :=
  ((first_row.take (first_row.length - 1)).enum).foldl scan_step ⟨none, none, none, none⟩

/-- Worksheet-level error of `main.rs`'s `read_worksheet` (carried there as a
formatted `"Can't read first row from sheet '{}'"` /
`"Can't find column '{}' in sheet '{}'"` message string). -/
inductive WsErr where
  | noFirstRow (sheet : String)
  | missingColumn (column : String) (sheet : String)
deriving DecidableEq

/-- Outcome of `main.rs`'s `read_worksheet`: ledger plus the sorted set of
observed periods, a worksheet-scoped error, or a panic. -/
inductive WsResult where
  | ok (data : Ledger) (all_periods : List String)
  | err (e : WsErr)
  | panicked
deriving DecidableEq

/-- The row loop of `main.rs`'s `read_worksheet`: rows failing `read_row` are
silently skipped (`if let Ok`), parsed rows are folded into the ledger and
their period inserted into the `BTreeSet`; a panicking row aborts
(`none`). -/
def fold_rows (columns : Columns) (group_by : Date → String) :
    List (List DataType) → Ledger → List String → Option (Ledger × List String)
  | [], led, pers => some (led, pers)
  | row :: rest, led, pers =>
    match read_row columns row with
    | .panicked => none
    | .err _ => fold_rows columns group_by rest led pers
    | .ok fields =>
      fold_rows columns group_by rest
        (ledger_step group_by led fields)
        (insert_period pers (group_by fields.period))

/-- Rust `read_worksheet` of `src/main.rs` on the rows of one worksheet
range.  An empty worksheet fails with the first-row error; a first row with
zero cells makes the Rust loop bound `first_row.len() - 1` underflow (an
arithmetic-overflow panic in debug builds, an out-of-bounds index in release
builds), modelled as `panicked`.  The row loop runs over all rows, the
header row included (its cells never parse as a transaction). -/
def MainRs.read_worksheet (name : String) (rows : List (List DataType))
    (group_by : Date → String) : WsResult :=
  match rows with
  | [] => .err (.noFirstRow name)
  | first_row :: _ =>
    if first_row.length = 0 then .panicked
    else
      let pos := scan_header first_row
      match pos.period_pos with
      | none => .err (.missingColumn period_str name)
      | some pp =>
        match pos.category_pos with
        | none => .err (.missingColumn category_str name)
        | some cp =>
          match pos.tx_type_pos with
          | none => .err (.missingColumn tx_type_str name)
          | some tp =>
            match pos.value_pos with
            | none => .err (.missingColumn value_str name)
            | some vp =>
              match fold_rows ⟨pp, cp, tp, vp⟩ group_by rows [] [] with
              | none => .panicked
              | some (led, pers) => .ok led pers

/-- Error enum of `src/money_manager.rs`. -/
inductive MyCustomError where
  | openError
  | otherError
deriving DecidableEq

/-- Outcome of `money_manager.rs`'s `read_worksheet` (no period set is
collected there, and every worksheet-level failure is the uninformative
`OtherError`). -/
inductive MMWsResult where
  | ok (data : Ledger)
  | err (e : MyCustomError)
  | panicked
deriving DecidableEq

/-- Row loop of `money_manager.rs`'s `read_worksheet` (identical to
`fold_rows` but without the period set). -/
def MM.fold_rows (columns : Columns) (group_by : Date → String) :
    List (List DataType) → Ledger → Option Ledger
  | [], led => some led
  | row :: rest, led =>
    match read_row columns row with
    | .panicked => none
    | .err _ => MM.fold_rows columns group_by rest led
    | .ok fields => MM.fold_rows columns group_by rest (ledger_step group_by led fields)

/-- Rust `read_worksheet` of `src/money_manager.rs`. -/
def MM.read_worksheet (name : String) (rows : List (List DataType))
    (group_by : Date → String) : MMWsResult :=
  match rows with
  | [] => .err .otherError
  | first_row :: _ =>
    if first_row.length = 0 then .panicked
    else
      let pos := scan_header first_row
      match pos.period_pos, pos.category_pos, pos.tx_type_pos, pos.value_pos with
      | some pp, some cp, some tp, some vp =>
        (match MM.fold_rows ⟨pp, cp, tp, vp⟩ group_by rows [] with
         | none => .panicked
         | some led => .ok led)
      | _, _, _, _ => .err .otherError

/-- Outcome of `money_manager.rs`'s `parse_report` after the workbook has
been opened (opening the file is an external I/O boundary). -/
inductive MMRunResult where
  | ok (ds : List Ledger)
  | err (e : MyCustomError)
  | panicked
deriving DecidableEq

/-- Rust `parse_report` of `src/money_manager.rs` on an opened workbook:
`worksheets().map(read_worksheet).collect::<Result<Vec<_>, _>>()`, which
stops at the first failing worksheet. -/
def MM.parse_report (group_by : GroupBy) :
    List (String × List (List DataType)) → MMRunResult
  | [] => .ok []
  | (name, rows) :: rest =>
    match MM.read_worksheet name rows (MM.period_from_date group_by) with
    | .panicked => .panicked
    | .err e => .err e
    | .ok d =>
      match MM.parse_report group_by rest with
      | .ok ds => .ok (d :: ds)
      | r => r

/-! ### Window selection and chart assembly -/

/-- Rust `last_n_groups` (identical in both files):
`periods.into_iter().rev().take(n + 1).skip(1).rev().collect()`. -/
def last_n_groups (periods : List String) (n : Nat) : List String :=
  (((periods.reverse).take (n + 1)).drop 1).reverse

/-- Trailing-window size (`const MAX_PERIODS : usize = 12`). -/
def MAX_PERIODS : Nat := 12

/-- Line style of a plotly trace (only the two styles the program uses). -/
inductive LineStyle where
  | solid
  | longDashDot
deriving DecidableEq

/-- Struct `ChartData` of `main.rs`. -/
structure ChartData where
  name : String
  y_values : List ℚ
  line : LineStyle
deriving DecidableEq

/-- Struct `ImageData` of `main.rs`. -/
structure ImageData where
  x_values : List String
  charts : List ChartData
deriving DecidableEq

/-- Rust `worksheet_data_to_image_data`: one solid-line chart per category,
with one value per window period, `0.0` where the category has no entry for
that period. -/
def worksheet_data_to_image_data (worksheet_data : Ledger)
    (periods : List String) : ImageData :=
  { x_values := periods,
    charts := worksheet_data.map (fun cm =>
      { name := cm.1,
        y_values := periods.map (fun period =>
          match lookupKV cm.2 period with
          | some v => v
          | none => 0),
        line := .solid }) }

/-- Mean of the `statistical` crate (`sum / len`; on an empty slice the f64
division yields NaN, which the rationals cannot represent — the model yields
`0`, and no theorem below depends on the empty case). -/
def mean (l : List ℚ) : ℚ := l.sum / l.length

/-- Median of the `statistical` crate: sort, middle element for odd length,
average of the two middle elements for even length.  On an empty slice the
crate indexes out of bounds — a panic, modelled as `none`. -/
def median (l : List ℚ) : Option ℚ :=
  if l.length = 0 then none
  else
    let s := l.insertionSort (· ≤ ·)
    if l.length % 2 = 0 then
      some ((s.getD (l.length / 2 - 1) 0 + s.getD (l.length / 2) 0) / 2)
    else some (s.getD (l.length / 2) 0)

/-- Rust `filter_all_spendings`: keep charts with `median(y) > 0.0`.
Evaluating the predicate on an empty series panics (`none`). -/
def filter_all_spendings : List ChartData → Option (List ChartData)
  | [] => some []
  | cd :: rest =>
    match median cd.y_values with
    | none => none
    | some med =>
      match filter_all_spendings rest with
      | none => none
      | some out => some (if 0 < med then cd :: out else out)

/-- Rust `filter_regular_spendings`: keep charts with
`median > 0 && mean < 2 * median && median < 2 * mean`. -/
def filter_regular_spendings : List ChartData → Option (List ChartData)
  | [] => some []
  | cd :: rest =>
    match median cd.y_values with
    | none => none
    | some med =>
      match filter_regular_spendings rest with
      | none => none
      | some out =>
        some (if 0 < med ∧ mean cd.y_values < 2 * med ∧ med < 2 * mean cd.y_values
          then cd :: out else out)

/-- Label of the aggregate series (`"Всего"`, Russian for "Total"). -/
def total_str : String := "Всего"

/-- Rust `add_total` of `src/main.rs`: positionally sums all charts into one
extra long-dash-dot chart named `"Всего"`.  The inner loop indexes
`chart.y_values[i]` for every `i < x_values.len()`, which panics (`none`)
when some chart is shorter than the x-axis. -/
def add_total (image_data : ImageData) : Option ImageData :=
  let len := image_data.x_values.length
  if image_data.charts.all (fun chart => len ≤ chart.y_values.length) then
    some { image_data with
      charts := image_data.charts ++
        [{ name := total_str,
           y_values := (List.range len).map (fun i =>
             (image_data.charts.map (fun chart => chart.y_values.getD i 0)).sum),
           line := .longDashDot }] }
  else none

/-- Title of the regular-spendings report (`"Регулярные траты"`). -/
def regular_title : String := "Регулярные траты"

/-- Title of the all-spendings report (`"Все траты"`). -/
def all_title : String := "Все траты"

/-- Rust `draw_image` of `src/main.rs`: filter the charts, append the total,
and render.  Rendering always succeeds (`Ok(path)` in the source); the
random file name and the SVG file are the external rendering boundary, so
the model returns the chart content that would be rendered.  A panic inside
the filter or `add_total` is `none`. -/
def draw_image (image_data : ImageData) (title : String)
    (filter : List ChartData → Option (List ChartData)) :
    Option (Except String (String × ImageData)) :=
  match filter image_data.charts with
  | none => none
  | some cs =>
    match add_total { x_values := image_data.x_values, charts := cs } with
    | none => none
    | some d => some (.ok (title, d))

/-- Outcome of `main.rs`'s `parse_report_and_draw_images` after the workbook
has been opened. -/
inductive RunResult where
  | ok (images : List (String × ImageData))
  | err (msg : String)
  | panicked
deriving DecidableEq

/-- The worksheet loop of `parse_report_and_draw_images`: a worksheet whose
`read_worksheet` fails is silently skipped (`if let Ok`); for a parsed
worksheet the two report variants are drawn and their results pushed. -/
def process_worksheets (group_by : Date → String) :
    List (String × List (List DataType)) →
    List (Except String (String × ImageData)) →
    Option (List (Except String (String × ImageData)))
  | [], acc => some acc
  | (worksheet_name, rows) :: rest, acc =>
    match MainRs.read_worksheet worksheet_name rows group_by with
    | .panicked => none
    | .err _ => process_worksheets group_by rest acc
    | .ok worksheet_data periods =>
      let x_values := last_n_groups periods MAX_PERIODS
      let image_data := worksheet_data_to_image_data worksheet_data x_values
      match draw_image image_data regular_title filter_regular_spendings with
      | none => none
      | some r₁ =>
        match draw_image image_data all_title filter_all_spendings with
        | none => none
        | some r₂ => process_worksheets group_by rest (acc ++ [r₁, r₂])

/-- Rust `parse_report_and_draw_images` of `src/main.rs` on an opened
workbook: run the worksheet loop, then partition the pushed draw results
into successes and errors; with no errors the successes are returned,
otherwise the error messages are joined with `";\n"`. -/
def MainRs.parse_report_and_draw_images (group : GroupBy)
    (worksheets : List (String × List (List DataType))) : RunResult :=
  match process_worksheets (MainRs.period_from_date group) worksheets [] with
  | none => .panicked
  | some results =>
    let errors := results.filterMap (fun r =>
      match r with
      | .error e => some e
      | .ok _ => none)
    if errors.length = 0 then
      .ok (results.filterMap (fun r =>
        match r with
        | .ok v => some v
        | .error _ => none))
    else .err (String.intercalate ";\n" errors)

/-- Worksheet predicate used to state the amended aggregation claim: the
worksheet neither panics in `read_worksheet` nor reaches
`statistical::median` with an empty series (a non-empty ledger over an empty
window). -/
def sheet_ok (group_by : Date → String)
    (sheet : String × List (List DataType)) : Bool :=
  match MainRs.read_worksheet sheet.1 sheet.2 group_by with
  | .panicked => false
  | .err _ => true
  | .ok wd periods => wd.isEmpty || !(last_n_groups periods MAX_PERIODS).isEmpty

/-- Outputs the pipeline produces for one worksheet: none for a failed
worksheet, the two report variants for a parsed one. -/
def expected_outputs (group_by : Date → String)
    (sheet : String × List (List DataType)) : List (String × ImageData) :=
  match MainRs.read_worksheet sheet.1 sheet.2 group_by with
  | .ok wd periods =>
    let img := worksheet_data_to_image_data wd (last_n_groups periods MAX_PERIODS)
    (match draw_image img regular_title filter_regular_spendings,
           draw_image img all_title filter_all_spendings with
     | some (.ok o₁), some (.ok o₂) => [o₁, o₂]
     | _, _ => [])
  | _ => []

/-! ### Predicates and sample data used by the statements below -/

/-- Keys of an association list are strictly ascending — the invariant of a
`BTreeMap` snapshot. -/
def KeysSorted {β : Type} (m : List (String × β)) : Prop :=
  m.Pairwise (fun a b => strLt a.1 b.1 = true)

/-- Both levels of a ledger are sorted. -/
def LedgerSorted (L : Ledger) : Prop :=
  KeysSorted L ∧ ∀ p ∈ L, KeysSorted p.2

/-- Value stored in a ledger for a `(category, period)` bucket. -/
def lookup2 (L : Ledger) (c p : String) : Option ℚ :=
  match lookupKV L c with
  | some m => lookupKV m p
  | none => none

/-- Sample worksheet whose header row lacks the value column `"RUB"`:
`read_worksheet` fails on it. -/
def sheet_missing_value_column : String × List (List DataType) :=
  ("Лист1",
    [[.string "Период", .string "Категория", .string "Доход/Расход", .string "X"]])

/-- Sample worksheet with a complete header and four income rows in four
consecutive months. -/
def sheet_with_income_rows : String × List (List DataType) :=
  ("Лист2",
    [[.string "Период", .string "Категория", .string "Доход/Расход", .string "RUB", .empty],
     [.string "05.01.2023", .string "Еда", .string "Доход", .float 50, .empty],
     [.string "05.02.2023", .string "Еда", .string "Доход", .float 50, .empty],
     [.string "05.03.2023", .string "Еда", .string "Доход", .float 50, .empty],
     [.string "05.04.2023", .string "Еда", .string "Доход", .float 50, .empty]])

/-- The chart content both report variants render for
`sheet_with_income_rows`: the income category is filtered out and only the
all-zero total remains. -/
def income_only_total_image : ImageData :=
  { x_values := ["2023-01", "2023-02", "2023-03"],
    charts := [{ name := total_str, y_values := [0, 0, 0], line := .longDashDot }] }

end MoneyManager

namespace MoneyManager

/-! ## Order lemmas for the boolean lexicographic comparison -/

theorem charsLt_irrefl (l : List Char) : charsLt l l = false := by
  induction l with
  | nil => rfl
  | cons a as ih => simp [charsLt, lt_irrefl, ih]

theorem charsLt_asymm : ∀ (l₁ l₂ : List Char),
    charsLt l₁ l₂ = true → charsLt l₂ l₁ = false := by
  intro l₁
  induction l₁ with
  | nil =>
    intro l₂ h
    cases l₂ with
    | nil => simp [charsLt] at h
    | cons b bs => simp [charsLt]
  | cons a as ih =>
    intro l₂ h
    cases l₂ with
    | nil => simp [charsLt] at h
    | cons b bs =>
      simp only [charsLt] at h ⊢
      by_cases hab : a < b
      · rw [if_neg (lt_asymm hab), if_pos hab]
      · by_cases hba : b < a
        · rw [if_neg hab, if_pos hba] at h
          exact absurd h (by simp)
        · rw [if_neg hab, if_neg hba] at h
          rw [if_neg hba, if_neg hab]
          exact ih bs h

theorem charsLt_total_eq : ∀ (l₁ l₂ : List Char),
    charsLt l₁ l₂ = false → charsLt l₂ l₁ = false → l₁ = l₂ := by
  intro l₁
  induction l₁ with
  | nil =>
    intro l₂ h₁ _
    cases l₂ with
    | nil => rfl
    | cons b bs => simp [charsLt] at h₁
  | cons a as ih =>
    intro l₂ h₁ h₂
    cases l₂ with
    | nil => simp [charsLt] at h₂
    | cons b bs =>
      simp only [charsLt] at h₁ h₂
      by_cases hab : a < b
      · rw [if_pos hab] at h₁
        exact absurd h₁ (by simp)
      · by_cases hba : b < a
        · rw [if_pos hba] at h₂
          exact absurd h₂ (by simp)
        · rw [if_neg hab, if_neg (fun h => hba h)] at h₁
          rw [if_neg hba, if_neg (fun h => hab h)] at h₂
          rw [le_antisymm (not_lt.mp hba) (not_lt.mp hab), ih bs h₁ h₂]

theorem charsLt_trans : ∀ (l₁ l₂ l₃ : List Char),
    charsLt l₁ l₂ = true → charsLt l₂ l₃ = true → charsLt l₁ l₃ = true := by
  intro l₁
  induction l₁ with
  | nil =>
    intro l₂ l₃ h₁ h₂
    cases l₂ with
    | nil => simp [charsLt] at h₁
    | cons b bs =>
      cases l₃ with
      | nil => simp [charsLt] at h₂
      | cons c cs => simp [charsLt]
  | cons a as ih =>
    intro l₂ l₃ h₁ h₂
    cases l₂ with
    | nil => simp [charsLt] at h₁
    | cons b bs =>
      cases l₃ with
      | nil => simp [charsLt] at h₂
      | cons c cs =>
        simp only [charsLt] at h₁ h₂ ⊢
        by_cases hab : a < b
        · by_cases hbc : b < c
          · rw [if_pos (lt_trans hab hbc)]
          · by_cases hcb : c < b
            · rw [if_neg hbc, if_pos hcb] at h₂
              exact absurd h₂ (by simp)
            · rw [le_antisymm (not_lt.mp hcb) (not_lt.mp hbc)] at hab
              rw [if_pos hab]
        · by_cases hba : b < a
          · rw [if_neg hab, if_pos hba] at h₁
            exact absurd h₁ (by simp)
          · rw [le_antisymm (not_lt.mp hba) (not_lt.mp hab)]
            by_cases hbc : b < c
            · rw [if_pos hbc]
            · by_cases hcb : c < b
              · rw [if_neg hbc, if_pos hcb] at h₂
                exact absurd h₂ (by simp)
              · rw [if_neg hab, if_neg hba] at h₁
                rw [if_neg hbc, if_neg hcb] at h₂
                rw [if_neg hbc, if_neg hcb]
                exact ih bs cs h₁ h₂

theorem strLt_irrefl (s : String) : strLt s s = false := charsLt_irrefl _

theorem strLt_asymm {s t : String} (h : strLt s t = true) : strLt t s = false :=
  charsLt_asymm _ _ h

theorem strLt_total_eq {s t : String} (h₁ : strLt s t = false)
    (h₂ : strLt t s = false) : s = t := by
  cases s with
  | mk d₁ =>
    cases t with
    | mk d₂ => exact congrArg String.mk (charsLt_total_eq d₁ d₂ h₁ h₂)

theorem strLt_trans {s t u : String} (h₁ : strLt s t = true)
    (h₂ : strLt t u = true) : strLt s u = true :=
  charsLt_trans _ _ _ h₁ h₂

theorem strLt_ne {s t : String} (h : strLt s t = true) : s ≠ t := by
  intro he
  rw [he, strLt_irrefl] at h
  exact absurd h (by simp)

theorem strLt_true_of_false {s t : String} (h : strLt s t = false) (hne : s ≠ t) :
    strLt t s = true := by
  cases ht : strLt t s with
  | true => rfl
  | false => exact absurd (strLt_total_eq h ht) hne

theorem lex_of_charsLt : ∀ (l₁ l₂ : List Char), charsLt l₁ l₂ = true →
    List.Lex (· < ·) l₁ l₂ := by
  intro l₁
  induction l₁ with
  | nil =>
    intro l₂ h
    cases l₂ with
    | nil => simp [charsLt] at h
    | cons b bs => exact List.Lex.nil
  | cons a as ih =>
    intro l₂ h
    cases l₂ with
    | nil => simp [charsLt] at h
    | cons b bs =>
      simp only [charsLt] at h
      by_cases hab : a < b
      · exact List.Lex.rel hab
      · by_cases hba : b < a
        · rw [if_neg hab, if_pos hba] at h
          exact absurd h (by simp)
        · rw [if_neg hab, if_neg hba] at h
          rw [le_antisymm (not_lt.mp hba) (not_lt.mp hab)]
          exact List.Lex.cons (ih bs h)

theorem lt_of_strLt (s t : String) (h : strLt s t = true) : s < t :=
  String.lt_iff_toList_lt.mpr (lex_of_charsLt s.data t.data h)

/-! ## Algebra of sorted insert-or-combine -/

theorem strLt_trichotomy (a b : String) :
    (strLt a b = true ∧ a ≠ b ∧ strLt b a = false) ∨
    (strLt a b = false ∧ a = b ∧ strLt b a = false) ∨
    (strLt a b = false ∧ a ≠ b ∧ strLt b a = true) := by
  cases h₁ : strLt a b with
  | true => exact Or.inl ⟨rfl, strLt_ne h₁, strLt_asymm h₁⟩
  | false =>
    cases h₂ : strLt b a with
    | true => exact Or.inr (Or.inr ⟨rfl, fun he => strLt_ne h₂ he.symm, rfl⟩)
    | false => exact Or.inr (Or.inl ⟨rfl, strLt_total_eq h₁ h₂, rfl⟩)

theorem insertWith_comm {β : Type} (f₁ f₂ : β → β) (b₁ b₂ : β) (k₁ k₂ : String)
    (hff : ∀ v, f₁ (f₂ v) = f₂ (f₁ v)) (hfb : k₁ = k₂ → f₁ b₂ = f₂ b₁) :
    ∀ m : List (String × β),
      insertWith f₂ b₂ (insertWith f₁ b₁ m k₁) k₂ =
        insertWith f₁ b₁ (insertWith f₂ b₂ m k₂) k₁ := by
  intro m
  by_cases hk : k₁ = k₂
  · subst hk
    induction m with
    | nil => simp [insertWith, strLt_irrefl, hfb rfl]
    | cons hd rest ih =>
      rcases hd with ⟨k, w⟩
      rcases strLt_trichotomy k₁ k with ⟨h1, _, _⟩ | ⟨h1, h2, _⟩ | ⟨h1, h2, _⟩
      · simp [insertWith, h1, strLt_irrefl, hfb rfl]
      · simp [insertWith, h1, h2, strLt_irrefl, hff w]
      · simp [insertWith, h1, h2, ih]
  · induction m with
    | nil =>
      rcases strLt_trichotomy k₁ k₂ with ⟨h1, h2, h3⟩ | ⟨_, h2, _⟩ | ⟨h1, h2, h3⟩
      · simp [insertWith, h1, h2, h3, Ne.symm h2]
      · exact absurd h2 hk
      · simp [insertWith, h1, h2, h3, Ne.symm h2]
    | cons hd rest ih =>
      rcases hd with ⟨k, w⟩
      rcases strLt_trichotomy k₁ k with ⟨h1a, h1b, h1c⟩ | ⟨h1a, h1b, h1c⟩ | ⟨h1a, h1b, h1c⟩ <;>
        rcases strLt_trichotomy k₂ k with ⟨h2a, h2b, h2c⟩ | ⟨h2a, h2b, h2c⟩ | ⟨h2a, h2b, h2c⟩
      · -- k₁ < k, k₂ < k
        rcases strLt_trichotomy k₁ k₂ with ⟨h3a, h3b, h3c⟩ | ⟨_, h3b, _⟩ | ⟨h3a, h3b, h3c⟩
        · simp [insertWith, h1a, h2a, h3a, h3b, h3c, Ne.symm h3b]
        · exact absurd h3b hk
        · simp [insertWith, h1a, h2a, h3a, h3b, h3c, Ne.symm h3b]
      · -- k₁ < k, k₂ = k
        subst h2b
        have h3 : strLt k₂ k₁ = false := strLt_asymm h1a
        simp [insertWith, h1a, h3, Ne.symm h1b, strLt_irrefl]
      · -- k₁ < k, k < k₂
        have h3 : strLt k₁ k₂ = true := strLt_trans h1a h2c
        have h4 : strLt k₂ k₁ = false := strLt_asymm h3
        simp [insertWith, h1a, h2a, h2b, h4, Ne.symm (strLt_ne h3)]
      · -- k₁ = k, k₂ < k
        subst h1b
        have h3 : strLt k₁ k₂ = false := strLt_asymm h2a
        simp [insertWith, h1a, h2a, h3, hk]
      · -- k₁ = k = k₂: impossible
        exact absurd (h1b.trans h2b.symm) hk
      · -- k₁ = k, k < k₂
        subst h1b
        simp [insertWith, h1a, h2a, h2b, strLt_irrefl]
      · -- k < k₁, k₂ < k
        have h3 : strLt k₂ k₁ = true := strLt_trans h2a h1c
        have h4 : strLt k₁ k₂ = false := strLt_asymm h3
        simp [insertWith, h1a, h1b, h2a, h4, strLt_ne h3, Ne.symm (strLt_ne h3)]
      · -- k < k₁, k₂ = k
        subst h2b
        simp [insertWith, h1a, h1b, h2a, strLt_irrefl]
      · -- k < k₁, k < k₂: recurse
        simp [insertWith, h1a, h1b, h2a, h2b, ih]


theorem bump_comm (m : List (String × ℚ)) (k₁ k₂ : String) (v₁ v₂ : ℚ) :
    bump (bump m k₁ v₁) k₂ v₂ = bump (bump m k₂ v₂) k₁ v₁ :=
  insertWith_comm _ _ _ _ k₁ k₂ (fun v => by ring) (fun _ => by ring) m

theorem ledger_add_comm (L : Ledger) (c₁ p₁ : String) (v₁ : ℚ) (c₂ p₂ : String) (v₂ : ℚ) :
    ledger_add (ledger_add L c₁ p₁ v₁) c₂ p₂ v₂ =
      ledger_add (ledger_add L c₂ p₂ v₂) c₁ p₁ v₁ :=
  insertWith_comm _ _ _ _ c₁ c₂ (fun m => bump_comm m p₂ p₁ v₂ v₁)
    (fun _ => bump_comm _ p₂ p₁ v₂ v₁) L

/-- Claim C8 (amended): the ledger builder is order-independent under
exact arithmetic — with amounts as exact rationals the per-bucket `+=`
fold is commutative and associative, so folding any permutation of the
transaction sequence yields the identical ledger (the same `BTreeMap`
snapshot: same keys, equal stored values).  For the source's actual `f64`
accumulation this holds only up to floating-point rounding: binary64
addition is not associative, and the counterexample below exhibits a
permutation that changes a stored bucket value. -/
theorem build_ledger_perm_invariant (group_by : Date → String)
    (t₁ t₂ : List Fields) (h : t₁.Perm t₂) :
    build_ledger group_by t₁ = build_ledger group_by t₂ :=
  @List.Perm.foldl_eq _ _ (ledger_step group_by) _ _
    ⟨fun led a b => ledger_add_comm led a.category (group_by a.period) (addition a)
      b.category (group_by b.period) (addition b)⟩ h []

theorem build_ledger_perm_invariant_witness :
    build_ledger by_month
        [⟨⟨2023, 1, 1⟩, "Food", .outcome, 300⟩, ⟨⟨2023, 2, 1⟩, "Cafe", .income, 50⟩] =
      build_ledger by_month
        [⟨⟨2023, 2, 1⟩, "Cafe", .income, 50⟩, ⟨⟨2023, 1, 1⟩, "Food", .outcome, 300⟩] :=
  build_ledger_perm_invariant by_month _ _ (by decide)

/-- Counterexample to claim C8 as stated: with the source's genuine `f64`
accumulation (round-to-nearest-even binary64, modelled exactly by
`f64add`), permuting the transaction sequence changes a stored bucket
value — summing `10^16 + 1 - 10^16` in program order stores `0.0`, while
the permutation `10^16 - 10^16 + 1` stores `1.0`. -/
theorem build_ledger_not_perm_invariant_f64 :
    ([⟨⟨2023, 1, 1⟩, "A", .outcome, f64ofNat (10 ^ 16)⟩,
      ⟨⟨2023, 1, 2⟩, "A", .outcome, f64ofNat 1⟩,
      ⟨⟨2023, 1, 3⟩, "A", .income, f64ofNat (10 ^ 16)⟩] : List Fields64).Perm
      [⟨⟨2023, 1, 1⟩, "A", .outcome, f64ofNat (10 ^ 16)⟩,
       ⟨⟨2023, 1, 3⟩, "A", .income, f64ofNat (10 ^ 16)⟩,
       ⟨⟨2023, 1, 2⟩, "A", .outcome, f64ofNat 1⟩] ∧
    build_ledger64 by_month
        [⟨⟨2023, 1, 1⟩, "A", .outcome, f64ofNat (10 ^ 16)⟩,
         ⟨⟨2023, 1, 2⟩, "A", .outcome, f64ofNat 1⟩,
         ⟨⟨2023, 1, 3⟩, "A", .income, f64ofNat (10 ^ 16)⟩] =
      [("A", [("2023-01", ⟨false, 0, 0⟩)])] ∧
    build_ledger64 by_month
        [⟨⟨2023, 1, 1⟩, "A", .outcome, f64ofNat (10 ^ 16)⟩,
         ⟨⟨2023, 1, 3⟩, "A", .income, f64ofNat (10 ^ 16)⟩,
         ⟨⟨2023, 1, 2⟩, "A", .outcome, f64ofNat 1⟩] =
      [("A", [("2023-01", f64ofNat 1)])] ∧
    (⟨false, 0, 0⟩ : F64) ≠ f64ofNat 1 :=
  ⟨by decide, by decide, by decide, by decide⟩

/-- Claim C1: `main.rs`'s `by_quarter` computes `month / 3 + 1` instead of
the documented `(month - 1) / 3 + 1`, so December of 2023 is labelled
`"2023-q5"` — a quarter number outside 1–4 — and March lands in quarter 2;
`money_manager.rs`'s `by_quarter` implements the documented formula. -/
theorem by_quarter_out_of_range :
    MainRs.by_quarter ⟨2023, 12, 31⟩ = "2023-q5" ∧
    MainRs.by_quarter ⟨2023, 3, 1⟩ = "2023-q2" ∧
    MM.by_quarter ⟨2023, 12, 31⟩ = "2023-q4" ∧
    MM.by_quarter ⟨2023, 3, 1⟩ = "2023-q1" ∧
    (12 - 1) / 3 + 1 = 4 := by decide

/-- Claim C3: `read_row` is not total — a row whose transaction-type cell is
not a string (here a numeric cell) passes the value check with
`tx_type = None` and then panics at `tx_type.unwrap()`; the same columns
with a proper label row parse fine. -/
theorem read_row_panics_on_nonstring_tx_type :
    read_row ⟨0, 1, 2, 3⟩
        [.string "01.01.2023", .string "Еда", .float 5, .float 100] = .panicked ∧
    read_row ⟨0, 1, 2, 3⟩
        [.string "01.01.2023", .string "Еда", .string "Расход", .float 100] =
      .ok ⟨⟨2023, 1, 1⟩, "Еда", .outcome, 100⟩ := by decide

/-! ## Lookup characterisation of the sorted maps -/

theorem lookupKV_none_of_all_lt {β : Type} :
    ∀ (m : List (String × β)) (key : String),
      (∀ p ∈ m, strLt key p.1 = true) → lookupKV m key = none := by
  intro m
  induction m with
  | nil => intro key _; rfl
  | cons hd rest ih =>
    intro key h
    rcases hd with ⟨k, w⟩
    have hne : key ≠ k := strLt_ne (h (k, w) (by simp))
    simp [lookupKV, hne, ih key (fun p hp => h p (by simp [hp]))]

theorem lookupKV_mem {β : Type} :
    ∀ (m : List (String × β)) (key : String) (v : β),
      lookupKV m key = some v → (key, v) ∈ m := by
  intro m
  induction m with
  | nil => intro key v h; simp [lookupKV] at h
  | cons hd rest ih =>
    intro key v h
    rcases hd with ⟨k, w⟩
    by_cases hk : key = k
    · subst hk
      simp [lookupKV] at h
      simp [h]
    · simp [lookupKV, hk] at h
      simp [ih key v h]

theorem mem_keys_insertWith {β : Type} (f : β → β) (init : β) :
    ∀ (m : List (String × β)) (k : String) (p : String × β),
      p ∈ insertWith f init m k → p.1 = k ∨ p.1 ∈ m.map Prod.fst := by
  intro m
  induction m with
  | nil =>
    intro k p hp
    simp [insertWith] at hp
    simp [hp]
  | cons hd rest ih =>
    intro k p hp
    rcases hd with ⟨k', w⟩
    rcases strLt_trichotomy k k' with ⟨h1, _, _⟩ | ⟨h1, h2, _⟩ | ⟨h1, h2, _⟩
    · rw [show insertWith f init ((k', w) :: rest) k = (k, init) :: (k', w) :: rest from by
        simp [insertWith, h1]] at hp
      rcases List.mem_cons.mp hp with h | h
      · left; rw [h]
      · right; exact List.mem_map_of_mem Prod.fst h
    · subst h2
      rw [show insertWith f init ((k, w) :: rest) k = (k, f w) :: rest from by
        simp [insertWith, h1]] at hp
      rcases List.mem_cons.mp hp with h | h
      · left; rw [h]
      · right; exact List.mem_map_of_mem Prod.fst (List.mem_cons_of_mem _ h)
    · rw [show insertWith f init ((k', w) :: rest) k = (k', w) :: insertWith f init rest k from by
        simp [insertWith, h1, h2]] at hp
      rcases List.mem_cons.mp hp with h | h
      · right; rw [h]; exact List.mem_map_of_mem Prod.fst (List.mem_cons_self _ _)
      · rcases ih k p h with h' | h'
        · left; exact h'
        · right
          rcases List.mem_map.mp h' with ⟨q, hq, hq'⟩
          exact List.mem_map.mpr ⟨q, List.mem_cons_of_mem _ hq, hq'⟩

theorem insertWith_sorted {β : Type} (f : β → β) (init : β) :
    ∀ (m : List (String × β)) (k : String),
      KeysSorted m → KeysSorted (insertWith f init m k) := by
  intro m
  induction m with
  | nil =>
    intro k _
    exact List.pairwise_cons.mpr ⟨by simp, List.Pairwise.nil⟩
  | cons hd rest ih =>
    intro k hs
    rcases hd with ⟨k', w⟩
    rcases List.pairwise_cons.mp hs with ⟨hhd, hrest⟩
    rcases strLt_trichotomy k k' with ⟨h1, _, _⟩ | ⟨h1, h2, _⟩ | ⟨h1, h2, h3⟩
    · rw [show insertWith f init ((k', w) :: rest) k = (k, init) :: (k', w) :: rest from by
        simp [insertWith, h1]]
      refine List.pairwise_cons.mpr ⟨?_, hs⟩
      intro b hb
      rcases List.mem_cons.mp hb with h | h
      · rw [h]; exact h1
      · exact strLt_trans h1 (hhd b h)
    · subst h2
      rw [show insertWith f init ((k, w) :: rest) k = (k, f w) :: rest from by
        simp [insertWith, h1]]
      exact List.pairwise_cons.mpr ⟨hhd, hrest⟩
    · rw [show insertWith f init ((k', w) :: rest) k = (k', w) :: insertWith f init rest k from by
        simp [insertWith, h1, h2]]
      refine List.pairwise_cons.mpr ⟨?_, ih k hrest⟩
      intro b hb
      rcases mem_keys_insertWith f init rest k b hb with h | h
      · rw [h]; exact h3
      · rcases List.mem_map.mp h with ⟨q, hq, hq'⟩
        rw [← hq']
        exact hhd q hq

theorem lookupKV_insertWith {β : Type} (f : β → β) (init : β) :
    ∀ (m : List (String × β)) (k key : String), KeysSorted m →
      lookupKV (insertWith f init m k) key =
        if key = k then
          (match lookupKV m k with
           | some v => some (f v)
           | none => some init)
        else lookupKV m key := by
  intro m
  induction m with
  | nil =>
    intro k key _
    by_cases h : key = k <;> simp [insertWith, lookupKV, h]
  | cons hd rest ih =>
    intro k key hs
    rcases hd with ⟨k', w⟩
    rcases List.pairwise_cons.mp hs with ⟨hhd, hrest⟩
    rcases strLt_trichotomy k k' with ⟨h1, h2, _⟩ | ⟨h1, h2, _⟩ | ⟨h1, h2, h3⟩
    · have hmk : lookupKV ((k', w) :: rest) k = none := by
        apply lookupKV_none_of_all_lt
        intro p hp
        rcases List.mem_cons.mp hp with h | h
        · rw [h]; exact h1
        · exact strLt_trans h1 (hhd p h)
      rw [show insertWith f init ((k', w) :: rest) k = (k, init) :: (k', w) :: rest from by
        simp [insertWith, h1]]
      by_cases hkey : key = k
      · subst hkey
        rw [hmk]
        simp [lookupKV]
      · simp [lookupKV, hkey]
    · subst h2
      rw [show insertWith f init ((k, w) :: rest) k = (k, f w) :: rest from by
        simp [insertWith, h1]]
      by_cases hkey : key = k
      · subst hkey
        simp [lookupKV]
      · simp [lookupKV, hkey]
    · rw [show insertWith f init ((k', w) :: rest) k = (k', w) :: insertWith f init rest k from by
        simp [insertWith, h1, h2]]
      by_cases hkey : key = k'
      · subst hkey
        have hne : key ≠ k := fun he => h2 he.symm
        simp [lookupKV, hne]
      · simp only [lookupKV, if_neg hkey]
        rw [ih k key hrest]
        by_cases hk2 : key = k
        · rw [if_pos hk2, if_pos hk2]
          have : k ≠ k' := h2
          simp [lookupKV, this]
        · rw [if_neg hk2, if_neg hk2]

theorem lookupKV_bump (m : List (String × ℚ)) (k key : String) (v : ℚ)
    (hs : KeysSorted m) :
    lookupKV (bump m k v) key =
      if key = k then some ((lookupKV m k).getD 0 + v) else lookupKV m key := by
  rw [show bump m k v = insertWith (· + v) v m k from rfl,
    lookupKV_insertWith (· + v) v m k key hs]
  by_cases hk : key = k
  · subst hk
    cases hm : lookupKV m key with
    | none => simp
    | some w => simp
  · simp [hk]

theorem snd_mem_insertWith {β : Type} (f : β → β) (init : β) :
    ∀ (m : List (String × β)) (k : String) (p : String × β),
      p ∈ insertWith f init m k → p.2 = init ∨ p ∈ m ∨ ∃ q ∈ m, p.2 = f q.2 := by
  intro m
  induction m with
  | nil =>
    intro k p hp
    simp [insertWith] at hp
    left
    simp [hp]
  | cons hd rest ih =>
    intro k p hp
    rcases hd with ⟨k', w⟩
    rcases strLt_trichotomy k k' with ⟨h1, _, _⟩ | ⟨h1, h2, _⟩ | ⟨h1, h2, _⟩
    · rw [show insertWith f init ((k', w) :: rest) k = (k, init) :: (k', w) :: rest from by
        simp [insertWith, h1]] at hp
      rcases List.mem_cons.mp hp with h | h
      · left; rw [h]
      · right; left; exact h
    · subst h2
      rw [show insertWith f init ((k, w) :: rest) k = (k, f w) :: rest from by
        simp [insertWith, h1]] at hp
      rcases List.mem_cons.mp hp with h | h
      · right; right
        exact ⟨(k, w), List.mem_cons_self _ _, by rw [h]⟩
      · right; left; exact List.mem_cons_of_mem _ h
    · rw [show insertWith f init ((k', w) :: rest) k = (k', w) :: insertWith f init rest k from by
        simp [insertWith, h1, h2]] at hp
      rcases List.mem_cons.mp hp with h | h
      · right; left; rw [h]; exact List.mem_cons_self _ _
      · rcases ih k p h with h' | h' | ⟨q, hq, hq'⟩
        · left; exact h'
        · right; left; exact List.mem_cons_of_mem _ h'
        · right; right; exact ⟨q, List.mem_cons_of_mem _ hq, hq'⟩

theorem ledger_add_sorted (L : Ledger) (c p : String) (v : ℚ)
    (hs : LedgerSorted L) : LedgerSorted (ledger_add L c p v) := by
  rcases hs with ⟨houter, hinner⟩
  constructor
  · exact insertWith_sorted _ _ L c houter
  · intro q hq
    rcases snd_mem_insertWith _ _ L c q hq with h | h | ⟨r, hr, h⟩
    · rw [h]
      exact insertWith_sorted _ _ [] p List.Pairwise.nil
    · exact hinner q h
    · rw [h]
      exact insertWith_sorted _ _ r.2 p (hinner r hr)

theorem foldl_ledger_sorted (group_by : Date → String) :
    ∀ (txs : List Fields) (L : Ledger), LedgerSorted L →
      LedgerSorted (txs.foldl (ledger_step group_by) L) := by
  intro txs
  induction txs with
  | nil => intro L h; exact h
  | cons t rest ih =>
    intro L h
    exact ih _ (ledger_add_sorted _ _ _ _ h)

theorem build_ledger_sorted (group_by : Date → String) (txs : List Fields) :
    LedgerSorted (build_ledger group_by txs) :=
  foldl_ledger_sorted group_by txs [] ⟨List.Pairwise.nil, by simp⟩

theorem lookup2_ledger_add (L : Ledger) (c' p' : String) (v : ℚ) (c p : String)
    (hs : LedgerSorted L) :
    lookup2 (ledger_add L c' p' v) c p =
      if c = c' ∧ p = p' then some ((lookup2 L c p).getD 0 + v)
      else lookup2 L c p := by
  rcases hs with ⟨houter, hinner⟩
  unfold lookup2 ledger_add
  rw [lookupKV_insertWith _ _ L c' c houter]
  by_cases hc : c = c'
  · rw [if_pos hc]
    subst hc
    cases hL : lookupKV L c with
    | none =>
      by_cases hp : p = p'
      · subst hp
        simp [bump, insertWith, lookupKV]
      · simp [bump, insertWith, lookupKV, hp]
    | some m =>
      have hms : KeysSorted m := hinner (c, m) (lookupKV_mem L c m hL)
      simp only
      rw [lookupKV_bump m p' p v hms]
      by_cases hp : p = p'
      · simp [hp]
      · simp [hp]
  · rw [if_neg hc, if_neg (fun h => hc h.1)]

/-- Claim C9: every stored `(category, period)` value of a built ledger is
the signed bucket sum — `+amount` for Outcome rows, `-amount` for Income
rows — and the three-row scenario of the specification yields exactly
`{"Food": {"2023-01": 400.0, "2023-02": -50.0}}`. -/
theorem ledger_bucket_invariant :
    (∀ (group_by : Date → String) (txs : List Fields) (c p : String),
      lookup2 (build_ledger group_by txs) c p =
        (if (txs.filter (fun t => t.category = c ∧ group_by t.period = p)).length = 0
         then none
         else some
           (((txs.filter (fun t => t.category = c ∧ group_by t.period = p)).map
              addition).sum))) ∧
    build_ledger by_month
        [⟨⟨2023, 1, 1⟩, "Food", .outcome, 300⟩, ⟨⟨2023, 1, 15⟩, "Food", .outcome, 100⟩,
         ⟨⟨2023, 2, 1⟩, "Food", .income, 50⟩] =
      [("Food", [("2023-01", 400), ("2023-02", -50)])] := by
  constructor
  · intro group_by txs c p
    induction txs using List.reverseRecOn with
    | nil => simp [build_ledger, lookup2, lookupKV]
    | append_singleton txs t ih =>
      have hstep : build_ledger group_by (txs ++ [t]) =
          ledger_add (build_ledger group_by txs) t.category (group_by t.period)
            (addition t) := by
        unfold build_ledger
        rw [List.foldl_append]
        rfl
      rw [hstep,
        lookup2_ledger_add _ _ _ _ c p (build_ledger_sorted group_by txs),
        List.filter_append, ih]
      by_cases hb : t.category = c ∧ group_by t.period = p
      · have hcond : c = t.category ∧ p = group_by t.period := ⟨hb.1.symm, hb.2.symm⟩
        rw [if_pos hcond]
        have hfil : List.filter (fun t => decide (t.category = c ∧ group_by t.period = p)) [t]
            = [t] := by simp [hb]
        rw [hfil]
        by_cases h0 : (txs.filter (fun t => decide (t.category = c ∧ group_by t.period = p))).length = 0
        · rw [if_pos h0]
          rw [List.length_eq_zero.mp h0]
          simp
        · rw [if_neg h0]
          simp [List.sum_append]
      · have hcond : ¬(c = t.category ∧ p = group_by t.period) :=
          fun h => hb ⟨h.1.symm, h.2.symm⟩
        rw [if_neg hcond]
        have hfil : List.filter (fun t => decide (t.category = c ∧ group_by t.period = p)) [t]
            = [] := by simp [hb]
        rw [hfil]
        simp
  · have h : build_ledger by_month
        [⟨⟨2023, 1, 1⟩, "Food", .outcome, 300⟩, ⟨⟨2023, 1, 15⟩, "Food", .outcome, 100⟩,
         ⟨⟨2023, 2, 1⟩, "Food", .income, 50⟩] =
        [("Food", [("2023-01", (300 : ℚ) + 100), ("2023-02", -50)])] := rfl
    rw [h]
    norm_num

/-! ## The window selector -/

theorem dropLast_reverse_eq {α : Type} (l : List α) :
    l.dropLast.reverse = l.reverse.drop 1 := by
  induction l using List.reverseRecOn with
  | nil => rfl
  | append_singleton xs a _ =>
    rw [List.dropLast_concat, List.reverse_append]
    rfl

theorem last_n_groups_eq (l : List String) (n : Nat) :
    last_n_groups l n = (l.dropLast.reverse.take n).reverse := by
  unfold last_n_groups
  rw [List.drop_take, ← dropLast_reverse_eq]
  norm_num

theorem last_n_groups_sublist (l : List String) (n : Nat) :
    (last_n_groups l n).Sublist l.dropLast := by
  rw [last_n_groups_eq]
  rw [← List.reverse_sublist, List.reverse_reverse]
  exact List.take_sublist n l.dropLast.reverse

/-- Claim C4: on a strictly ascending period universe, `last_n_groups`
returns a window of length `min n (len - 1)` that is still strictly
ascending and never contains the maximum (most recent) period. -/
theorem last_n_groups_spec (l : List String) (n : Nat) (hs : l.Sorted (· < ·)) :
    (last_n_groups l n).length = min n (l.length - 1) ∧
    (last_n_groups l n).Sorted (· < ·) ∧
    ∀ m, l.getLast? = some m → m ∉ last_n_groups l n := by
  refine ⟨?_, ?_, ?_⟩
  · unfold last_n_groups
    simp only [List.length_reverse, List.length_drop, List.length_take]
    omega
  · exact List.Pairwise.sublist
      ((last_n_groups_sublist l n).trans (List.dropLast_sublist l)) hs
  · intro m hm hmem
    have hne : l ≠ [] := by
      intro h
      rw [h] at hm
      simp at hm
    have hlast : m = l.getLast hne := by
      rw [List.getLast?_eq_getLast l hne] at hm
      exact (Option.some.inj hm).symm
    have hsplit : l.dropLast ++ [l.getLast hne] = l := List.dropLast_append_getLast hne
    have hmem' : m ∈ l.dropLast := (last_n_groups_sublist l n).subset hmem
    have hpw : List.Pairwise (· < ·) (l.dropLast ++ [l.getLast hne]) := by
      rw [hsplit]
      exact hs
    have hlt : m < l.getLast hne :=
      (List.pairwise_append.mp hpw).2.2 m hmem' (l.getLast hne) (List.mem_singleton.mpr rfl)
    rw [hlast] at hlt
    exact lt_irrefl _ hlt

theorem last_n_groups_spec_witness :
    (["2023-01", "2023-02", "2023-03"] : List String).Sorted (· < ·) ∧
    ((last_n_groups ["2023-01", "2023-02", "2023-03"] 1).length = min 1 2 ∧
      (last_n_groups ["2023-01", "2023-02", "2023-03"] 1).Sorted (· < ·) ∧
      ∀ m, (["2023-01", "2023-02", "2023-03"] : List String).getLast? = some m →
        m ∉ last_n_groups ["2023-01", "2023-02", "2023-03"] 1) := by
  have h12 : ("2023-01" : String) < "2023-02" := lt_of_strLt _ _ rfl
  have h13 : ("2023-01" : String) < "2023-03" := lt_of_strLt _ _ rfl
  have h23 : ("2023-02" : String) < "2023-03" := lt_of_strLt _ _ rfl
  have hs : (["2023-01", "2023-02", "2023-03"] : List String).Sorted (· < ·) := by
    refine List.pairwise_cons.mpr ⟨?_, List.pairwise_cons.mpr ⟨?_, List.pairwise_singleton _ _⟩⟩
    · intro b hb
      rcases List.mem_cons.mp hb with h | h
      · rw [h]; exact h12
      · rw [List.mem_singleton.mp h]; exact h13
    · intro b hb
      rw [List.mem_singleton.mp hb]; exact h23
  exact ⟨hs, last_n_groups_spec ["2023-01", "2023-02", "2023-03"] 1 hs⟩

/-! ## Lexicographic order of the period keys -/

theorem digitChar_lt_digitChar :
    ∀ a, a < 10 → ∀ b, b < 10 → (Nat.digitChar a < Nat.digitChar b ↔ a < b) := by
  decide

theorem digitChar_lt (a b : Nat) (ha : a ≤ 9) (hb : b ≤ 9) (h : a < b) :
    Nat.digitChar a < Nat.digitChar b :=
  (digitChar_lt_digitChar a (by omega) b (by omega)).mpr h

theorem toDigitsAux_small (fuel n : Nat) (hf : 1 ≤ fuel) (h : n < 10) :
    toDigitsAux fuel n = [Nat.digitChar n] := by
  cases fuel with
  | zero => omega
  | succ f => simp [toDigitsAux, h]

theorem toDigitsAux_two (fuel n : Nat) (hf : 2 ≤ fuel) (h1 : 10 ≤ n) (h2 : n < 100) :
    toDigitsAux fuel n = [Nat.digitChar (n / 10), Nat.digitChar (n % 10)] := by
  cases fuel with
  | zero => omega
  | succ f =>
    have hn : ¬ n < 10 := by omega
    simp only [toDigitsAux, if_neg hn]
    rw [toDigitsAux_small f (n / 10) (by omega) (by omega)]
    rfl

theorem toDigitsAux_three (fuel n : Nat) (hf : 3 ≤ fuel) (h1 : 100 ≤ n) (h2 : n < 1000) :
    toDigitsAux fuel n =
      [Nat.digitChar (n / 100), Nat.digitChar (n / 10 % 10), Nat.digitChar (n % 10)] := by
  cases fuel with
  | zero => omega
  | succ f =>
    have hn : ¬ n < 10 := by omega
    simp only [toDigitsAux, if_neg hn]
    rw [toDigitsAux_two f (n / 10) (by omega) (by omega) (by omega)]
    have e : n / 10 / 10 = n / 100 := by omega
    rw [e]
    rfl

theorem toDigitsAux_four (fuel n : Nat) (hf : 4 ≤ fuel) (h1 : 1000 ≤ n) (h2 : n < 10000) :
    toDigitsAux fuel n =
      [Nat.digitChar (n / 1000), Nat.digitChar (n / 100 % 10),
       Nat.digitChar (n / 10 % 10), Nat.digitChar (n % 10)] := by
  cases fuel with
  | zero => omega
  | succ f =>
    have hn : ¬ n < 10 := by omega
    simp only [toDigitsAux, if_neg hn]
    rw [toDigitsAux_three f (n / 10) (by omega) (by omega) (by omega)]
    have e₁ : n / 10 / 100 = n / 1000 := by omega
    have e₂ : n / 10 / 10 = n / 100 := by omega
    rw [e₁, e₂]
    rfl

theorem natChars_of_lt_10 (n : Nat) (h : n < 10) : natChars n = [Nat.digitChar n] :=
  toDigitsAux_small _ _ (by omega) h

theorem padChars4_eq (n : Nat) (h : n ≤ 9999) :
    padChars 4 (natChars n) =
      [Nat.digitChar (n / 1000), Nat.digitChar (n / 100 % 10),
       Nat.digitChar (n / 10 % 10), Nat.digitChar (n % 10)] := by
  by_cases h1 : n < 10
  · have e3 : n / 1000 = 0 := by omega
    have e2 : n / 100 % 10 = 0 := by omega
    have e1 : n / 10 % 10 = 0 := by omega
    have e0 : n % 10 = n := by omega
    rw [e3, e2, e1, e0]
    unfold natChars
    rw [toDigitsAux_small _ _ (by omega) h1]
    rfl
  · by_cases h2 : n < 100
    · have e3 : n / 1000 = 0 := by omega
      have e2 : n / 100 % 10 = 0 := by omega
      have e1 : n / 10 % 10 = n / 10 := by omega
      rw [e3, e2, e1]
      unfold natChars
      rw [toDigitsAux_two _ _ (by omega) (by omega) h2]
      rfl
    · by_cases h3 : n < 1000
      · have e3 : n / 1000 = 0 := by omega
        have e2 : n / 100 % 10 = n / 100 := by omega
        rw [e3, e2]
        unfold natChars
        rw [toDigitsAux_three _ _ (by omega) (by omega) h3]
        rfl
      · unfold natChars
        rw [toDigitsAux_four _ _ (by omega) (by omega) (by omega)]
        rfl

theorem padChars2_eq (n : Nat) (h : n ≤ 99) :
    padChars 2 (natChars n) = [Nat.digitChar (n / 10), Nat.digitChar (n % 10)] := by
  by_cases h1 : n < 10
  · have e1 : n / 10 = 0 := by omega
    have e0 : n % 10 = n := by omega
    rw [e1, e0]
    unfold natChars
    rw [toDigitsAux_small _ _ (by omega) h1]
    rfl
  · unfold natChars
    rw [toDigitsAux_two _ _ (by omega) (by omega) (by omega)]
    rfl

theorem padChars4_lt (a b : Nat) (hab : a < b) (hb : b ≤ 9999) :
    List.Lex (· < ·) (padChars 4 (natChars a)) (padChars 4 (natChars b)) := by
  rw [padChars4_eq a (by omega), padChars4_eq b hb]
  rcases Nat.lt_trichotomy (a / 1000) (b / 1000) with h3 | h3 | h3
  · exact List.Lex.rel (digitChar_lt _ _ (by omega) (by omega) h3)
  · rw [h3]
    refine List.Lex.cons ?_
    rcases Nat.lt_trichotomy (a / 100 % 10) (b / 100 % 10) with h2 | h2 | h2
    · exact List.Lex.rel (digitChar_lt _ _ (by omega) (by omega) h2)
    · rw [h2]
      refine List.Lex.cons ?_
      rcases Nat.lt_trichotomy (a / 10 % 10) (b / 10 % 10) with h1 | h1 | h1
      · exact List.Lex.rel (digitChar_lt _ _ (by omega) (by omega) h1)
      · rw [h1]
        refine List.Lex.cons ?_
        exact List.Lex.rel (digitChar_lt _ _ (by omega) (by omega) (by omega))
      · exact absurd h1 (by omega)
    · exact absurd h2 (by omega)
  · exact absurd h3 (by omega)

theorem padChars2_lt (a b : Nat) (hab : a < b) (hb : b ≤ 99) :
    List.Lex (· < ·) (padChars 2 (natChars a)) (padChars 2 (natChars b)) := by
  rw [padChars2_eq a (by omega), padChars2_eq b hb]
  rcases Nat.lt_trichotomy (a / 10) (b / 10) with h1 | h1 | h1
  · exact List.Lex.rel (digitChar_lt _ _ (by omega) (by omega) h1)
  · rw [h1]
    refine List.Lex.cons ?_
    exact List.Lex.rel (digitChar_lt _ _ (by omega) (by omega) (by omega))
  · exact absurd h1 (by omega)

theorem lex_append_right (p u v : List Char) (h : List.Lex (· < ·) u v) :
    List.Lex (· < ·) (p ++ u) (p ++ v) := by
  induction p with
  | nil => exact h
  | cons c cs ih => exact List.Lex.cons ih

theorem lex_append_of_eqlen (l₁ l₂ u v : List Char) (h : List.Lex (· < ·) l₁ l₂)
    (hlen : l₁.length = l₂.length) :
    List.Lex (· < ·) (l₁ ++ u) (l₂ ++ v) := by
  induction h with
  | nil => simp at hlen
  | rel hab => exact List.Lex.rel hab
  | cons h ih => exact List.Lex.cons (ih (by simpa using hlen))

theorem mk_lt_mk (l₁ l₂ : List Char) (h : List.Lex (· < ·) l₁ l₂) :
    String.mk l₁ < String.mk l₂ :=
  String.lt_iff_toList_lt.mpr h

theorem fmtInt4_nonneg (z : Int) (h : 0 ≤ z) :
    fmtInt4 z = padChars 4 (natChars z.toNat) := if_pos h

theorem fmtInt4_length (z : Int) (h0 : 0 ≤ z) (h9 : z ≤ 9999) :
    (fmtInt4 z).length = 4 := by
  rw [fmtInt4_nonneg z h0, padChars4_eq _ (by omega)]
  rfl

theorem fmtInt4_lt (y₁ y₂ : Int) (h0 : 0 ≤ y₁) (hlt : y₁ < y₂) (h9 : y₂ ≤ 9999) :
    List.Lex (· < ·) (fmtInt4 y₁) (fmtInt4 y₂) := by
  rw [fmtInt4_nonneg y₁ h0, fmtInt4_nonneg y₂ (by omega)]
  exact padChars4_lt _ _ (by omega) (by omega)

theorem year_prefix_lt (y₁ y₂ : Int) (u v : List Char) (h0 : 0 ≤ y₁)
    (hlt : y₁ < y₂) (h9 : y₂ ≤ 9999) :
    (⟨fmtInt4 y₁ ++ u⟩ : String) < ⟨fmtInt4 y₂ ++ v⟩ :=
  mk_lt_mk _ _ (lex_append_of_eqlen _ _ u v (fmtInt4_lt y₁ y₂ h0 hlt h9)
    (by rw [fmtInt4_length y₁ h0 (by omega), fmtInt4_length y₂ (by omega) h9]))

theorem by_month_mono (d₁ d₂ : Date) (h0 : 0 ≤ d₁.year) (h9 : d₂.year ≤ 9999)
    (hm : d₂.month ≤ 99)
    (h : d₁.year < d₂.year ∨ (d₁.year = d₂.year ∧ d₁.month ≤ d₂.month)) :
    by_month d₁ ≤ by_month d₂ := by
  rcases h with h | ⟨hy, hm'⟩
  · exact le_of_lt (year_prefix_lt _ _ _ _ h0 h h9)
  · rcases Nat.lt_or_ge d₁.month d₂.month with hlt | hge
    · refine le_of_lt ?_
      unfold by_month
      rw [hy]
      refine mk_lt_mk _ _ ?_
      refine lex_append_right (fmtInt4 d₂.year) _ _ ?_
      exact List.Lex.cons (padChars2_lt _ _ hlt hm)
    · have he : d₁.month = d₂.month := by omega
      unfold by_month
      rw [hy, he]

theorem by_year_mono (d₁ d₂ : Date) (h0 : 0 ≤ d₁.year) (h9 : d₂.year ≤ 9999)
    (h : d₁.year ≤ d₂.year) : by_year d₁ ≤ by_year d₂ := by
  rcases lt_or_eq_of_le h with hlt | he
  · exact le_of_lt (mk_lt_mk _ _ (fmtInt4_lt _ _ h0 hlt h9))
  · unfold by_year
    rw [he]

theorem qstring_mono (y₁ y₂ : Int) (q₁ q₂ : Nat) (h0 : 0 ≤ y₁) (h9 : y₂ ≤ 9999)
    (hq₂ : q₂ ≤ 9)
    (h : y₁ < y₂ ∨ (y₁ = y₂ ∧ q₁ ≤ q₂)) :
    (⟨fmtInt4 y₁ ++ '-' :: 'q' :: natChars q₁⟩ : String) ≤
      ⟨fmtInt4 y₂ ++ '-' :: 'q' :: natChars q₂⟩ := by
  rcases h with h | ⟨hy, hq⟩
  · exact le_of_lt (year_prefix_lt _ _ _ _ h0 h h9)
  · rcases Nat.lt_or_ge q₁ q₂ with hlt | hge
    · refine le_of_lt (mk_lt_mk _ _ ?_)
      rw [hy]
      refine lex_append_right _ _ _ ?_
      refine List.Lex.cons (List.Lex.cons ?_)
      rw [natChars_of_lt_10 _ (by omega), natChars_of_lt_10 _ (by omega)]
      exact List.Lex.rel (digitChar_lt _ _ (by omega) (by omega) hlt)
    · have he : q₁ = q₂ := by omega
      rw [hy, he]

/-- Claim C5 (amended): for dates whose years print with exactly four digits
(`0 ≤ year ≤ 9999`), chronological order implies lexicographic order of the
derived period keys, for all three granularities of both source files.  The
unrestricted claim fails at year `10000` (see the counterexample below). -/
theorem period_keys_monotone (g : GroupBy) (d₁ d₂ : Date)
    (hv₁ : d₁.Valid) (hv₂ : d₂.Valid)
    (h0 : 0 ≤ d₁.year) (h9 : d₂.year ≤ 9999)
    (hlt : Date.lt d₁ d₂) :
    MainRs.period_from_date g d₁ ≤ MainRs.period_from_date g d₂ ∧
      MM.period_from_date g d₁ ≤ MM.period_from_date g d₂ := by
  have hy : d₁.year ≤ d₂.year := by
    rcases hlt with h | ⟨h, _⟩
    · exact le_of_lt h
    · exact le_of_eq h
  have hym : d₁.year < d₂.year ∨ (d₁.year = d₂.year ∧ d₁.month ≤ d₂.month) := by
    rcases hlt with h | ⟨h, h'⟩
    · exact Or.inl h
    · refine Or.inr ⟨h, ?_⟩
      rcases h' with h'' | ⟨h'', _⟩
      · omega
      · omega
  obtain ⟨_, _, hm1, hm2, _, _⟩ := hv₁
  obtain ⟨_, _, hm1', hm2', _, _⟩ := hv₂
  cases g with
  | month => exact ⟨by_month_mono d₁ d₂ h0 h9 (by omega) hym,
      by_month_mono d₁ d₂ h0 h9 (by omega) hym⟩
  | year => exact ⟨by_year_mono d₁ d₂ h0 h9 hy, by_year_mono d₁ d₂ h0 h9 hy⟩
  | quarter =>
    constructor
    · show (⟨fmtInt4 d₁.year ++ '-' :: 'q' :: natChars (d₁.month / 3 + 1)⟩ : String) ≤
        ⟨fmtInt4 d₂.year ++ '-' :: 'q' :: natChars (d₂.month / 3 + 1)⟩
      refine qstring_mono _ _ _ _ h0 h9 (by omega) ?_
      rcases hym with h | ⟨h, h'⟩
      · exact Or.inl h
      · exact Or.inr ⟨h, by omega⟩
    · show (⟨fmtInt4 d₁.year ++ '-' :: 'q' :: natChars ((d₁.month - 1) / 3 + 1)⟩ : String) ≤
        ⟨fmtInt4 d₂.year ++ '-' :: 'q' :: natChars ((d₂.month - 1) / 3 + 1)⟩
      refine qstring_mono _ _ _ _ h0 h9 (by omega) ?_
      rcases hym with h | ⟨h, h'⟩
      · exact Or.inl h
      · exact Or.inr ⟨h, by omega⟩

theorem period_keys_monotone_witness :
    (MainRs.period_from_date .quarter ⟨2023, 12, 31⟩ ≤
        MainRs.period_from_date .quarter ⟨2024, 1, 1⟩) ∧
      (MM.period_from_date .quarter ⟨2023, 12, 31⟩ ≤
        MM.period_from_date .quarter ⟨2024, 1, 1⟩) :=
  period_keys_monotone .quarter ⟨2023, 12, 31⟩ ⟨2024, 1, 1⟩ (by decide) (by decide)
    (by decide) (by decide) (by decide)

/-- Counterexample to claim C5 as stated: years `9999` and `10000` are both
valid `chrono` dates, the first is chronologically earlier, yet its year key
`"9999"` is lexicographically greater than `"10000"`. -/
theorem period_key_order_breaks_at_year_10000 :
    Date.Valid ⟨9999, 12, 31⟩ ∧ Date.Valid ⟨10000, 1, 1⟩ ∧
    Date.lt ⟨9999, 12, 31⟩ ⟨10000, 1, 1⟩ ∧
    ¬ (MainRs.period_from_date .year ⟨9999, 12, 31⟩ ≤
        MainRs.period_from_date .year ⟨10000, 1, 1⟩) ∧
    ¬ (MM.period_from_date .year ⟨9999, 12, 31⟩ ≤
        MM.period_from_date .year ⟨10000, 1, 1⟩) := by
  have hgt : (by_year ⟨10000, 1, 1⟩ : String) < by_year ⟨9999, 12, 31⟩ := by
    have e₁ : by_year (⟨10000, 1, 1⟩ : Date) = "10000" := by decide
    have e₂ : by_year (⟨9999, 12, 31⟩ : Date) = "9999" := by decide
    rw [e₁, e₂]
    exact lt_of_strLt _ _ rfl
  exact ⟨by decide, by decide, by decide, not_le.mpr hgt, not_le.mpr hgt⟩

/-! ## The total series and the series materializer -/

/-- Claim C6: for aligned series, `add_total` appends exactly one extra
series — labelled `"Всего"` ("Total"), drawn long-dash-dot, distinct from
the solid category series — whose value at every window position is the
positional sum of the input series, also when no category survived the
variant's filter. -/
theorem add_total_spec (image_data : ImageData)
    (h : ∀ c ∈ image_data.charts, c.y_values.length = image_data.x_values.length) :
    (∃ total : List ℚ,
      add_total image_data = some
        { x_values := image_data.x_values,
          charts := image_data.charts ++
            [{ name := total_str, y_values := total, line := .longDashDot }] } ∧
      total.length = image_data.x_values.length ∧
      (∀ i, ∀ hi : i < total.length,
        total.get ⟨i, hi⟩ =
          (image_data.charts.map (fun c => c.y_values.getD i 0)).sum) ∧
      (image_data.charts = [] →
        total = List.replicate image_data.x_values.length 0)) ∧
    ∀ (wd : Ledger) (w : List String) (c : ChartData),
      c ∈ (worksheet_data_to_image_data wd w).charts → c.line = .solid := by
  constructor
  · refine ⟨(List.range image_data.x_values.length).map (fun i =>
      (image_data.charts.map (fun chart => chart.y_values.getD i 0)).sum), ?_, ?_, ?_, ?_⟩
    · have hall : image_data.charts.all
          (fun chart => image_data.x_values.length ≤ chart.y_values.length) = true := by
        rw [List.all_eq_true]
        intro c hc
        simp [h c hc]
      simp only [add_total]
      rw [if_pos hall]
    · simp
    · intro i hi
      simp [List.get_eq_getElem, List.getElem_map]
    · intro h0
      rw [h0]
      simp [List.map_const']
  · intro wd w c hc
    unfold worksheet_data_to_image_data at hc
    simp only [List.mem_map] at hc
    obtain ⟨a, _, ha⟩ := hc
    rw [← ha]

theorem add_total_spec_witness :
    ∃ total : List ℚ,
      add_total ⟨["p1", "p2"], [⟨"a", [1, 2], .solid⟩, ⟨"b", [3, 4], .solid⟩]⟩ = some
          ⟨["p1", "p2"], [⟨"a", [1, 2], .solid⟩, ⟨"b", [3, 4], .solid⟩,
            ⟨total_str, total, .longDashDot⟩]⟩ ∧
        total.length = 2 ∧
        (∀ i, ∀ hi : i < total.length,
          total.get ⟨i, hi⟩ =
            (([⟨"a", [1, 2], .solid⟩, ⟨"b", [3, 4], .solid⟩] : List ChartData).map
              (fun c => c.y_values.getD i 0)).sum) ∧
        (([⟨"a", [1, 2], .solid⟩, ⟨"b", [3, 4], .solid⟩] : List ChartData) = [] →
          total = List.replicate 2 0) :=
  (add_total_spec ⟨["p1", "p2"], [⟨"a", [1, 2], .solid⟩, ⟨"b", [3, 4], .solid⟩]⟩
    (by decide)).1

/-- Claim C7: the series materializer gives the `i`-th ledger category a
series that is exactly as long as the window, positionally equal to the
stored ledger value at each window period, and exactly `0` wherever the
period is absent from that category's inner map. -/
theorem worksheet_data_to_image_data_spec (wd : Ledger) (window : List String)
    (i : Nat) (hi : i < wd.length) :
    (worksheet_data_to_image_data wd window).charts.length = wd.length ∧
    ∀ hi' : i < (worksheet_data_to_image_data wd window).charts.length,
      ((worksheet_data_to_image_data wd window).charts.get ⟨i, hi'⟩).name =
        (wd.get ⟨i, hi⟩).1 ∧
      ((worksheet_data_to_image_data wd window).charts.get ⟨i, hi'⟩).y_values.length =
        window.length ∧
      ∀ j, ∀ hj : j < window.length,
        ∀ hj' : j < ((worksheet_data_to_image_data wd window).charts.get
            ⟨i, hi'⟩).y_values.length,
        (lookupKV (wd.get ⟨i, hi⟩).2 (window.get ⟨j, hj⟩) = none →
          ((worksheet_data_to_image_data wd window).charts.get
            ⟨i, hi'⟩).y_values.get ⟨j, hj'⟩ = 0) ∧
        ∀ v, lookupKV (wd.get ⟨i, hi⟩).2 (window.get ⟨j, hj⟩) = some v →
          ((worksheet_data_to_image_data wd window).charts.get
            ⟨i, hi'⟩).y_values.get ⟨j, hj'⟩ = v := by
  unfold worksheet_data_to_image_data
  refine ⟨by simp, ?_⟩
  intro hi'
  refine ⟨by simp, by simp, ?_⟩
  intro j hj hj'
  constructor
  · intro hnone
    simp only [List.get_eq_getElem] at hnone ⊢
    simp only [List.getElem_map]
    rw [hnone]
  · intro v hsome
    simp only [List.get_eq_getElem] at hsome ⊢
    simp only [List.getElem_map]
    rw [hsome]

theorem worksheet_data_to_image_data_spec_witness :
    (worksheet_data_to_image_data [("Еда", [("2023-01", (5 : ℚ))])]
        ["2023-01", "2023-02"]).charts.length = 1 :=
  (worksheet_data_to_image_data_spec [("Еда", [("2023-01", (5 : ℚ))])]
    ["2023-01", "2023-02"] 0 (by decide)).1

/-! ## Header resolution -/

theorem scan_foldl_value_none (l : List (Nat × DataType)) (acc : HeaderPos)
    (h : ∀ p ∈ l, p.2 ≠ DataType.string value_str) :
    (l.foldl scan_step acc).value_pos = acc.value_pos := by
  induction l generalizing acc with
  | nil => rfl
  | cons p rest ih =>
    rw [List.foldl_cons, ih (scan_step acc p) (fun q hq => h q (List.mem_cons_of_mem _ hq))]
    have hp := h p (List.mem_cons_self _ _)
    unfold scan_step
    split_ifs <;> simp_all

theorem scan_foldl_period_none (l : List (Nat × DataType)) (acc : HeaderPos)
    (h : ∀ p ∈ l, p.2 ≠ DataType.string period_str) :
    (l.foldl scan_step acc).period_pos = acc.period_pos := by
  induction l generalizing acc with
  | nil => rfl
  | cons p rest ih =>
    rw [List.foldl_cons, ih (scan_step acc p) (fun q hq => h q (List.mem_cons_of_mem _ hq))]
    have hp := h p (List.mem_cons_self _ _)
    unfold scan_step
    split_ifs <;> simp_all

theorem scan_foldl_category_none (l : List (Nat × DataType)) (acc : HeaderPos)
    (h : ∀ p ∈ l, p.2 ≠ DataType.string category_str) :
    (l.foldl scan_step acc).category_pos = acc.category_pos := by
  induction l generalizing acc with
  | nil => rfl
  | cons p rest ih =>
    rw [List.foldl_cons, ih (scan_step acc p) (fun q hq => h q (List.mem_cons_of_mem _ hq))]
    have hp := h p (List.mem_cons_self _ _)
    unfold scan_step
    split_ifs <;> simp_all

theorem scan_foldl_tx_type_none (l : List (Nat × DataType)) (acc : HeaderPos)
    (h : ∀ p ∈ l, p.2 ≠ DataType.string tx_type_str) :
    (l.foldl scan_step acc).tx_type_pos = acc.tx_type_pos := by
  induction l generalizing acc with
  | nil => rfl
  | cons p rest ih =>
    rw [List.foldl_cons, ih (scan_step acc p) (fun q hq => h q (List.mem_cons_of_mem _ hq))]
    have hp := h p (List.mem_cons_self _ _)
    unfold scan_step
    split_ifs <;> simp_all

theorem read_worksheet_err_of_none (name : String) (group_by : Date → String)
    (first_row : List DataType) (rest : List (List DataType))
    (hlen0 : ¬ first_row.length = 0)
    (h : (scan_header first_row).period_pos = none ∨
      (scan_header first_row).category_pos = none ∨
      (scan_header first_row).tx_type_pos = none ∨
      (scan_header first_row).value_pos = none) :
    ∃ e, MainRs.read_worksheet name (first_row :: rest) group_by = .err e := by
  rcases h1 : (scan_header first_row).period_pos with _ | pp
  · exact ⟨.missingColumn period_str name, by simp [MainRs.read_worksheet, hlen0, h1]⟩
  · rcases h2 : (scan_header first_row).category_pos with _ | cp
    · exact ⟨.missingColumn category_str name, by
        simp [MainRs.read_worksheet, hlen0, h1, h2]⟩
    · rcases h3 : (scan_header first_row).tx_type_pos with _ | tp
      · exact ⟨.missingColumn tx_type_str name, by
          simp [MainRs.read_worksheet, hlen0, h1, h2, h3]⟩
      · rcases h4 : (scan_header first_row).value_pos with _ | vp
        · exact ⟨.missingColumn value_str name, by
            simp [MainRs.read_worksheet, hlen0, h1, h2, h3, h4]⟩
        · exfalso
          rcases h with h | h | h | h <;> simp_all

/-- Claim C10: the header scan loop `for i in 0..first_row.len() - 1` never
examines the last cell of the header row, so whenever any one of the four
required header labels (period, category, transaction-type or value column)
occurs only in the final column, its position stays unresolved and
`read_worksheet` fails header resolution even though the header is present;
and a first row with zero cells makes the loop bound
`first_row.len() - 1` underflow — a panic. -/
theorem header_scan_misses_last_column (name : String) (group_by : Date → String)
    (first_row : List DataType) (rest : List (List DataType)) (L : String)
    (hL : L = period_str ∨ L = category_str ∨ L = tx_type_str ∨ L = value_str)
    (hne : first_row ≠ [])
    (hlast : first_row.getLast? = some (DataType.string L))
    (hnot : ∀ i, i < first_row.length - 1 →
      first_row.get? i ≠ some (DataType.string L)) :
    ((L = period_str → (scan_header first_row).period_pos = none) ∧
      (L = category_str → (scan_header first_row).category_pos = none) ∧
      (L = tx_type_str → (scan_header first_row).tx_type_pos = none) ∧
      (L = value_str → (scan_header first_row).value_pos = none)) ∧
    (∃ e, MainRs.read_worksheet name (first_row :: rest) group_by = .err e) ∧
    MainRs.read_worksheet name ([] :: rest) group_by = .panicked := by
  have hcells : ∀ p ∈ (first_row.take (first_row.length - 1)).enum,
      p.2 ≠ DataType.string L := by
    intro p hp
    obtain ⟨i, x⟩ := p
    intro hx
    obtain ⟨hilt, hxeq⟩ := List.mem_enum hp
    have hlen : i < first_row.length - 1 := by
      simp only [List.length_take] at hilt
      omega
    apply hnot i hlen
    have hib : i < first_row.length := by omega
    have hget : (first_row.take (first_row.length - 1))[i] = first_row[i] :=
      List.getElem_take _
    rw [List.get?_eq_getElem?, List.getElem?_eq_getElem hib, ← hget, ← hxeq]
    exact congrArg some hx
  have hpos : (L = period_str → (scan_header first_row).period_pos = none) ∧
      (L = category_str → (scan_header first_row).category_pos = none) ∧
      (L = tx_type_str → (scan_header first_row).tx_type_pos = none) ∧
      (L = value_str → (scan_header first_row).value_pos = none) := by
    refine ⟨?_, ?_, ?_, ?_⟩ <;> intro hLe <;> subst hLe <;> unfold scan_header
    · rw [scan_foldl_period_none _ _ hcells]
    · rw [scan_foldl_category_none _ _ hcells]
    · rw [scan_foldl_tx_type_none _ _ hcells]
    · rw [scan_foldl_value_none _ _ hcells]
  have hlen0 : ¬ first_row.length = 0 := fun h => hne (List.length_eq_zero.mp h)
  refine ⟨hpos, ?_, rfl⟩
  apply read_worksheet_err_of_none name group_by first_row rest hlen0
  rcases hL with hLe | hLe | hLe | hLe
  · exact Or.inl (hpos.1 hLe)
  · exact Or.inr (Or.inl (hpos.2.1 hLe))
  · exact Or.inr (Or.inr (Or.inl (hpos.2.2.1 hLe)))
  · exact Or.inr (Or.inr (Or.inr (hpos.2.2.2 hLe)))

theorem header_scan_misses_last_column_witness :
    ((period_str = period_str → (scan_header [.string "Категория",
        .string "Доход/Расход", .string "RUB", .string "Период"]).period_pos = none) ∧
      (period_str = category_str → (scan_header [.string "Категория",
        .string "Доход/Расход", .string "RUB", .string "Период"]).category_pos = none) ∧
      (period_str = tx_type_str → (scan_header [.string "Категория",
        .string "Доход/Расход", .string "RUB", .string "Период"]).tx_type_pos = none) ∧
      (period_str = value_str → (scan_header [.string "Категория",
        .string "Доход/Расход", .string "RUB", .string "Период"]).value_pos = none)) ∧
    (∃ e, MainRs.read_worksheet "Лист" [[.string "Категория", .string "Доход/Расход",
        .string "RUB", .string "Период"]] by_month = .err e) ∧
    MainRs.read_worksheet "Лист" [[]] by_month = .panicked :=
  header_scan_misses_last_column "Лист" by_month
    [.string "Категория", .string "Доход/Расход", .string "RUB", .string "Период"] []
    period_str (by decide) (by decide) (by decide) (by decide)

/-! ## Per-worksheet failure handling of the report pipeline -/

theorem median_isSome (l : List ℚ) (h : l ≠ []) : ∃ m, median l = some m := by
  by_cases hp : l.length % 2 = 0 <;> simp [median, h, hp]

theorem filter_all_spendings_some :
    ∀ (cs : List ChartData), (∀ c ∈ cs, c.y_values ≠ []) →
      ∃ out, filter_all_spendings cs = some out ∧ ∀ c ∈ out, c ∈ cs := by
  intro cs
  induction cs with
  | nil => exact fun _ => ⟨[], rfl, by simp⟩
  | cons cd rest ih =>
    intro h
    obtain ⟨m, hm⟩ := median_isSome cd.y_values (h cd (List.mem_cons_self _ _))
    obtain ⟨out, hout, hsub⟩ := ih (fun c hc => h c (List.mem_cons_of_mem _ hc))
    refine ⟨if 0 < m then cd :: out else out, ?_, ?_⟩
    · simp only [filter_all_spendings, hm, hout]
    · intro c hc
      by_cases h0 : 0 < m
      · rw [if_pos h0] at hc
        rcases List.mem_cons.mp hc with h' | h'
        · rw [h']; exact List.mem_cons_self _ _
        · exact List.mem_cons_of_mem _ (hsub c h')
      · rw [if_neg h0] at hc
        exact List.mem_cons_of_mem _ (hsub c hc)

theorem filter_regular_spendings_some :
    ∀ (cs : List ChartData), (∀ c ∈ cs, c.y_values ≠ []) →
      ∃ out, filter_regular_spendings cs = some out ∧ ∀ c ∈ out, c ∈ cs := by
  intro cs
  induction cs with
  | nil => exact fun _ => ⟨[], rfl, by simp⟩
  | cons cd rest ih =>
    intro h
    obtain ⟨m, hm⟩ := median_isSome cd.y_values (h cd (List.mem_cons_self _ _))
    obtain ⟨out, hout, hsub⟩ := ih (fun c hc => h c (List.mem_cons_of_mem _ hc))
    refine ⟨if 0 < m ∧ mean cd.y_values < 2 * m ∧ m < 2 * mean cd.y_values
      then cd :: out else out, ?_, ?_⟩
    · simp only [filter_regular_spendings, hm, hout]
    · intro c hc
      by_cases h0 : 0 < m ∧ mean cd.y_values < 2 * m ∧ m < 2 * mean cd.y_values
      · rw [if_pos h0] at hc
        rcases List.mem_cons.mp hc with h' | h'
        · rw [h']; exact List.mem_cons_self _ _
        · exact List.mem_cons_of_mem _ (hsub c h')
      · rw [if_neg h0] at hc
        exact List.mem_cons_of_mem _ (hsub c hc)

theorem draw_image_some (image_data : ImageData) (title : String)
    (filter : List ChartData → Option (List ChartData))
    (hlen : ∀ c ∈ image_data.charts, c.y_values.length = image_data.x_values.length)
    (hfil : ∃ out, filter image_data.charts = some out ∧
      ∀ c ∈ out, c ∈ image_data.charts) :
    ∃ d, draw_image image_data title filter = some (.ok (title, d)) := by
  obtain ⟨out, hout, hsub⟩ := hfil
  have hall : out.all
      (fun chart => image_data.x_values.length ≤ chart.y_values.length) = true := by
    rw [List.all_eq_true]
    intro c hc
    simp [hlen c (hsub c hc)]
  unfold draw_image
  rw [hout]
  simp only [add_total]
  rw [if_pos hall]
  exact ⟨_, rfl⟩

theorem charts_length_eq (wd : Ledger) (x : List String) :
    ∀ c ∈ (worksheet_data_to_image_data wd x).charts,
      c.y_values.length = (worksheet_data_to_image_data wd x).x_values.length := by
  intro c hc
  unfold worksheet_data_to_image_data at hc ⊢
  simp only [List.mem_map] at hc
  obtain ⟨a, _, ha⟩ := hc
  rw [← ha]
  simp

theorem charts_nonempty (wd : Ledger) (x : List String) (hx : x ≠ []) :
    ∀ c ∈ (worksheet_data_to_image_data wd x).charts, c.y_values ≠ [] := by
  intro c hc
  unfold worksheet_data_to_image_data at hc
  simp only [List.mem_map] at hc
  obtain ⟨a, _, ha⟩ := hc
  rw [← ha]
  simpa using hx

theorem process_worksheets_eq (group_by : Date → String) :
    ∀ (sheets : List (String × List (List DataType))),
      (∀ s ∈ sheets, sheet_ok group_by s = true) →
      ∀ acc, process_worksheets group_by sheets acc =
        some (acc ++ (sheets.flatMap (expected_outputs group_by)).map Except.ok) := by
  intro sheets
  induction sheets with
  | nil => intro _ acc; simp [process_worksheets]
  | cons s rest ih =>
    intro h acc
    obtain ⟨name, rows⟩ := s
    have hs := h _ (List.mem_cons_self _ _)
    have hrest : ∀ s ∈ rest, sheet_ok group_by s = true :=
      fun s hs' => h s (List.mem_cons_of_mem _ hs')
    cases hrw : MainRs.read_worksheet name rows group_by with
    | panicked =>
      exfalso
      unfold sheet_ok at hs
      rw [hrw] at hs
      simp at hs
    | err e =>
      have he : expected_outputs group_by (name, rows) = [] := by
        unfold expected_outputs
        rw [hrw]
      simp only [process_worksheets, hrw]
      rw [ih hrest acc, List.flatMap_cons, he]
      simp
    | ok wd periods =>
      unfold sheet_ok at hs
      rw [hrw] at hs
      have hne : ∀ c ∈ (worksheet_data_to_image_data wd
          (last_n_groups periods MAX_PERIODS)).charts, c.y_values ≠ [] := by
        rcases Bool.or_eq_true_iff.mp hs with h' | h'
        · have hwd : wd = [] := by simpa using h'
          rw [hwd]
          intro c hc
          simp [worksheet_data_to_image_data] at hc
        · exact charts_nonempty _ _ (by simpa using h')
      have hlen := charts_length_eq wd (last_n_groups periods MAX_PERIODS)
      obtain ⟨d₁, hd₁⟩ := draw_image_some _ regular_title _ hlen
        (filter_regular_spendings_some _ hne)
      obtain ⟨d₂, hd₂⟩ := draw_image_some _ all_title _ hlen
        (filter_all_spendings_some _ hne)
      have he : expected_outputs group_by (name, rows) =
          [(regular_title, d₁), (all_title, d₂)] := by
        unfold expected_outputs
        rw [hrw]
        simp only [hd₁, hd₂]
      simp only [process_worksheets, hrw, hd₁, hd₂]
      rw [ih hrest (acc ++ [Except.ok (regular_title, d₁), Except.ok (all_title, d₂)]),
        List.flatMap_cons, he]
      simp

theorem run_errors_of_map_ok (l : List (String × ImageData)) :
    (l.map (Except.ok : (String × ImageData) → Except String (String × ImageData))).filterMap
      (fun r =>
        match r with
        | .error e => some e
        | .ok _ => none) = [] := by
  induction l with
  | nil => rfl
  | cons x xs ih => simp [ih]

theorem run_oks_of_map_ok (l : List (String × ImageData)) :
    (l.map (Except.ok : (String × ImageData) → Except String (String × ImageData))).filterMap
      (fun r =>
        match r with
        | .ok v => some v
        | .error _ => none) = l := by
  induction l with
  | nil => rfl
  | cons x xs ih => simp [ih]

/-- Claim C2 (amended): `main.rs` silently drops worksheet-level failures —
whenever no worksheet panics, the run returns `Ok` with exactly the outputs
of the worksheets that parsed, in order: a failing worksheet contributes
nothing, no error is raised for it, and it does not suppress the outputs of
the other worksheets.  (`money_manager.rs`'s `parse_report` instead stops at
the first failing worksheet; see the counterexample.) -/
theorem run_silently_skips_failed_worksheets (group : GroupBy)
    (sheets : List (String × List (List DataType)))
    (h : ∀ s ∈ sheets, sheet_ok (MainRs.period_from_date group) s = true) :
    MainRs.parse_report_and_draw_images group sheets =
      .ok (sheets.flatMap (expected_outputs (MainRs.period_from_date group))) := by
  unfold MainRs.parse_report_and_draw_images
  rw [process_worksheets_eq _ sheets h []]
  simp only [List.nil_append]
  rw [run_errors_of_map_ok, run_oks_of_map_ok]
  rfl

theorem run_silently_skips_failed_worksheets_witness :
    MainRs.parse_report_and_draw_images .month
        [sheet_missing_value_column, sheet_with_income_rows] =
      .ok ([sheet_missing_value_column, sheet_with_income_rows].flatMap
        (expected_outputs (MainRs.period_from_date .month))) :=
  run_silently_skips_failed_worksheets .month
    [sheet_missing_value_column, sheet_with_income_rows] (by decide)

/-- Counterexample to claim C2 as stated: with one failing and one
succeeding worksheet the failing worksheet's error is never surfaced —
`main.rs` returns `Ok` carrying only the good worksheet's two images
(neither the full set of outputs for all worksheets nor any aggregated
error), while `money_manager.rs`'s `parse_report` aborts at the first
failure and suppresses the good worksheet's output. -/
theorem worksheet_failure_not_aggregated :
    MainRs.read_worksheet sheet_missing_value_column.1 sheet_missing_value_column.2
        (MainRs.period_from_date .month) = .err (.missingColumn value_str "Лист1") ∧
    MainRs.parse_report_and_draw_images .month
        [sheet_missing_value_column, sheet_with_income_rows] =
      .ok [(regular_title, income_only_total_image),
        (all_title, income_only_total_image)] ∧
    MM.parse_report .month [sheet_missing_value_column, sheet_with_income_rows] =
      .err .otherError :=
  ⟨by decide, by decide, by decide⟩

end MoneyManager
